import Mathlib

/-!
# Execution engine of the turing-machine repository

A shallow embedding of `src/turing_machine.h`.  The C++ handlers take the
memory vector and the instruction pointer by reference, print one diagnostic
line when they stop, and return `true` to stop or `false` to go on.  Here a
handler is a function from the memory and the instruction pointer to a
`StepResult` holding the memory and the pointer as the call leaves them,
together with the line printed before `return true` (`none` for `return false`).

Every `memory[i]` of the source is an unchecked `std::vector` access.  It is
embedded as the checked `memory[i]?`, and a handler returns `none` when such
an access would fall outside the vector.

The memory is a list of cells and `memory.size()` is its length, a number of
cells.  The instruction pointer `ip` is a `std::size_t` index into that vector;
it is a natural number here.  The `sizeof` of the packed instruction structs is
a number of bytes, two per cell.

The handlers are entered from `executeInstruction` only, once its test
`ip >= memory.size()` has failed.  There `ip` is below the size of a vector, so
the `std::size_t` sums `ip + sizeof(..)` of the handlers do not wrap, and the
natural-number sums of the embedding stand for them under that condition.  The
properties below are stated of `executeInstruction`; nothing is stated of a
handler called on its own with an `ip` that the engine does not pass to it.
-/

namespace TuringMachine

/-- Number of values of a cell.  The cell type `DataType` of the source is
`std::uint16_t`; cells are natural numbers here, and every value that a handler
computes and stores is reduced modulo this number explicitly. -/
def dataTypeModulus : Nat := 65536

/-- The value `std::numeric_limits<MaxDataType>::max()`, where `MaxDataType` is
`std::uint32_t`. -/
def maxDataTypeMax : Nat := 4294967295

/-- The diagnostic lines of `turing_machine.h`, one constructor per text, with
the number that is printed after `0x` where there is one. -/
inductive Message where
  /-- Line "Program completed abnormal". -/
  | programCompletedAbnormal
  /-- Line "Program completed successfully". -/
  | programCompletedSuccessfully
  /-- Line "Invalid opcode 0x" with the opcode. -/
  | invalidOpcode (op_code : Nat)
  /-- Line "Instruction is not complete". -/
  | instructionIsNotComplete
  /-- Line "Access violation on read 0x" with an address. -/
  | accessViolationOnRead (address : Nat)
  /-- Line "Access violation on write 0x" with an address. -/
  | accessViolationOnWrite (address : Nat)
  /-- Line "Division by zero". -/
  | divisionByZero
  /-- Line "Memory is exhausted, required size is" with the size. -/
  | memoryIsExhausted (required : Nat)
  deriving DecidableEq, Repr

/-- What a handler leaves behind: the memory, the instruction pointer, and the
line it printed when it returned `true` (`none` when it returned `false`). -/
structure StepResult where
  memory : List Nat
  ip : Nat
  halt : Option Message
  deriving DecidableEq, Repr

/-- `sizeof(NopInstruction)`: the packed struct holds one `std::uint16_t`,
so two bytes. -/
def sizeofNopInstruction : Nat := 2

/-- `sizeof(BinaryOperationAndAssignmentInstruction)`: five packed
`std::uint16_t` fields, so ten bytes. -/
def sizeofBinaryOperationAndAssignmentInstruction : Nat := 10

/-- `sizeof(IfInstruction)`: five packed `std::uint16_t` fields, so ten bytes. -/
def sizeofIfInstruction : Nat := 10

/-- `sizeof(GotoInstruction)`: two packed `std::uint16_t` fields, so four bytes. -/
def sizeofGotoInstruction : Nat := 4

/-- `sizeof(AllocateInstruction)`: two packed `std::uint16_t` fields, so four
bytes. -/
def sizeofAllocateInstruction : Nat := 4

/-- The assignment `memory[index] = value` of the source, checked: `none` when
`index` is outside the vector. -/
def writeCell (memory : List Nat) (index : Nat) (value : Nat) :
    Option (List Nat) :=
  if index < memory.length then some (memory.set index value) else none

/-- The call `memory.resize(new_capacity)` of `std::vector`: cut to `new_capacity`
cells, or filled up to it with zero cells. -/
def resize (memory : List Nat) (new_capacity : Nat) : List Nat :=
  memory.take new_capacity ++ List.replicate (new_capacity - memory.length) 0

/-- The addressing block that `executeBinaryOperationAndAssignment` and
`executeIf` repeat for `argument_a` (mask `0x1`) and `argument_b` (mask `0x2`),
lines 87-95, 96-104, 158-166 and 167-175: with the flag bit clear the argument
stays as it is; with the bit set it is compared with `memory.size()` and
replaced by `memory[argument]`.  `Except.error` carries the line printed before
`return true`. -/
def loadArgument (memory : List Nat) (flags mask argument : Nat) :
    Option (Except Message Nat) :=
  if flags &&& mask ≠ 0 then
    if argument ≥ memory.length then
      some (Except.error (Message.accessViolationOnRead argument))
    else
      (memory[argument]?).map Except.ok
  else
    some (Except.ok argument)

/-- The `switch` of `executeBinaryOperationAndAssignment`, lines 105-136.  The
operands are promoted to `int` and the value is converted back to `DataType`,
which reduces it modulo `2 ^ 16`.  (For `Mul` the product of two large cells
exceeds `int`; the wrapped value that compilers produce is taken.) -/
def binaryOperation (op_code argument_a argument_b : Nat) : Except Message Nat :=
  match op_code with
  | 1 => Except.ok ((argument_a + argument_b) % dataTypeModulus)
  | 2 => Except.ok ((((argument_a : Int) - (argument_b : Int)) % (dataTypeModulus : Int)).toNat)
  | 3 => Except.ok ((argument_a * argument_b) % dataTypeModulus)
  | 4 =>
    if argument_b = 0 then Except.error Message.divisionByZero
    else Except.ok ((argument_a / argument_b) % dataTypeModulus)
  | 5 =>
    if argument_b = 0 then Except.error Message.divisionByZero
    else Except.ok ((argument_a % argument_b) % dataTypeModulus)
  | _ => Except.error (Message.invalidOpcode op_code)

/-- The `switch` of `executeIf`, lines 176-200. -/
def comparison (op_code argument_a argument_b : Nat) : Except Message Bool :=
  match op_code with
  | 6 => Except.ok (decide (argument_a < argument_b))
  | 7 => Except.ok (decide (argument_a ≤ argument_b))
  | 8 => Except.ok (decide (argument_a = argument_b))
  | 9 => Except.ok (decide (argument_a ≠ argument_b))
  | 10 => Except.ok (decide (argument_a > argument_b))
  | 11 => Except.ok (decide (argument_a ≥ argument_b))
  | _ => Except.error (Message.invalidOpcode op_code)

/-- Function `executeNop`, lines 74-78, as entered from `executeInstruction` with
`ip < memory.size()`, where `ip += sizeof(NopInstruction)` does not wrap. -/
def executeNop (memory : List Nat) (ip : Nat) : Option StepResult :=
  some ⟨memory, ip + sizeofNopInstruction, none⟩

/-- Function `executeBinaryOperationAndAssignment`, lines 80-149.  The struct is
laid over `&memory[ip]`, so `op_code`, `flags`, `result_index`,
`a_index_or_value` and `b_index_or_value` are the cells `ip` to `ip + 4`.
Embedded as entered from `executeInstruction` with `ip < memory.size()`, where
the `std::size_t` sum `ip + sizeof(..)` does not wrap. -/
def executeBinaryOperationAndAssignment (memory : List Nat) (ip : Nat) :
    Option StepResult :=
  if memory.length ≥ ip + sizeofBinaryOperationAndAssignmentInstruction then
    match memory[ip]?, memory[ip + 1]?, memory[ip + 2]?, memory[ip + 3]?, memory[ip + 4]? with
    | some op_code, some flags, some result_index, some a_index_or_value,
        some b_index_or_value =>
      match loadArgument memory flags 0x1 a_index_or_value with
      | none => none
      | some (Except.error line) => some ⟨memory, ip, some line⟩
      | some (Except.ok argument_a) =>
        match loadArgument memory flags 0x2 b_index_or_value with
        | none => none
        | some (Except.error line) => some ⟨memory, ip, some line⟩
        | some (Except.ok argument_b) =>
          match binaryOperation op_code argument_a argument_b with
          | Except.error line => some ⟨memory, ip, some line⟩
          | Except.ok result =>
            if result_index ≥ memory.length then
              some ⟨memory, ip, some (Message.accessViolationOnWrite argument_a)⟩
            else
              match writeCell memory result_index result with
              | none => none
              | some memory1 =>
                some ⟨memory1, ip + sizeofBinaryOperationAndAssignmentInstruction, none⟩
    | _, _, _, _, _ => none
  else
    some ⟨memory, ip, some Message.instructionIsNotComplete⟩

/-- Function `executeIf`, lines 151-214.  The fields `op_code`, `flags`,
`a_index_or_value`, `b_index_or_value` and `new_address` are the cells `ip` to
`ip + 4`.  Embedded as entered from `executeInstruction` with
`ip < memory.size()`, where the `std::size_t` sum `ip + sizeof(..)` does not
wrap. -/
def executeIf (memory : List Nat) (ip : Nat) : Option StepResult :=
  if memory.length ≥ ip + sizeofIfInstruction then
    match memory[ip]?, memory[ip + 1]?, memory[ip + 2]?, memory[ip + 3]?, memory[ip + 4]? with
    | some op_code, some flags, some a_index_or_value, some b_index_or_value,
        some new_address =>
      match loadArgument memory flags 0x1 a_index_or_value with
      | none => none
      | some (Except.error line) => some ⟨memory, ip, some line⟩
      | some (Except.ok argument_a) =>
        match loadArgument memory flags 0x2 b_index_or_value with
        | none => none
        | some (Except.error line) => some ⟨memory, ip, some line⟩
        | some (Except.ok argument_b) =>
          match comparison op_code argument_a argument_b with
          | Except.error line => some ⟨memory, ip, some line⟩
          | Except.ok result =>
            if result then
              some ⟨memory, new_address, none⟩
            else
              some ⟨memory, ip + sizeofBinaryOperationAndAssignmentInstruction, none⟩
    | _, _, _, _, _ => none
  else
    some ⟨memory, ip, some Message.instructionIsNotComplete⟩

/-- Function `executeGoto`, lines 216-244.  The fields `op_code` and
`new_address_or_label_index` are the cells `ip` and `ip + 1`.  Embedded as
entered from `executeInstruction` with `ip < memory.size()`, where the
`std::size_t` sum `ip + sizeof(..)` does not wrap. -/
def executeGoto (memory : List Nat) (ip : Nat) : Option StepResult :=
  if memory.length ≥ ip + sizeofGotoInstruction then
    match memory[ip]?, memory[ip + 1]? with
    | some op_code, some new_address =>
      match op_code with
      | 12 => some ⟨memory, new_address, none⟩
      | 13 =>
        if new_address ≥ memory.length then
          some ⟨memory, ip, some (Message.accessViolationOnRead new_address)⟩
        else
          match memory[new_address]? with
          | none => none
          | some new_address1 => some ⟨memory, new_address1, none⟩
      | _ => some ⟨memory, ip, some (Message.invalidOpcode op_code)⟩
    | _, _ => none
  else
    some ⟨memory, ip, some Message.instructionIsNotComplete⟩

/-- Function `executeAllocate`, lines 246-268.  The field `variable_index` is the
cell `ip + 1`.  Embedded as entered from `executeInstruction` with
`ip < memory.size()`, where the `std::size_t` sum `ip + sizeof(..)` does not
wrap. -/
def executeAllocate (memory : List Nat) (ip : Nat) : Option StepResult :=
  if memory.length ≥ ip + sizeofAllocateInstruction then
    match memory[ip + 1]? with
    | none => none
    | some variable_index =>
      if variable_index ≥ memory.length then
        some ⟨memory, ip, some (Message.accessViolationOnRead variable_index)⟩
      else
        match memory[variable_index]? with
        | none => none
        | some amount =>
          let new_capacity := amount + memory.length
          if new_capacity ≥ maxDataTypeMax then
            some ⟨memory, ip, some (Message.memoryIsExhausted new_capacity)⟩
          else
            some ⟨resize memory new_capacity,
              ip + sizeofBinaryOperationAndAssignmentInstruction, none⟩
  else
    some ⟨memory, ip, some Message.instructionIsNotComplete⟩

/-- Function `executeInstruction`, lines 270-319: one step of the engine. -/
def executeInstruction (memory : List Nat) (ip : Nat) : Option StepResult :=
  if ip ≥ memory.length then
    some ⟨memory, ip, some Message.programCompletedAbnormal⟩
  else
    match memory[ip]? with
    | none => none
    | some op_code_raw =>
      match op_code_raw with
      | 0 => executeNop memory ip
      | 1 | 2 | 3 | 4 | 5 => executeBinaryOperationAndAssignment memory ip
      | 6 | 7 | 8 | 9 | 10 | 11 => executeIf memory ip
      | 12 | 13 => executeGoto memory ip
      | 14 => executeAllocate memory ip
      | 15 => some ⟨memory, ip, some Message.programCompletedSuccessfully⟩
      | _ => some ⟨memory, ip, some (Message.invalidOpcode op_code_raw)⟩

/-! ## The tokenizer of `compiler.cpp`

A `std::string` is a list of characters.  `nextToken` takes the line by
reference and returns the token; here it returns the token together with the
line as the call leaves it. -/

/-- Function `isSeparator`, `compiler.cpp` lines 24-27. -/
def isSeparator (a : Char) : Bool :=
  a == ' ' || a == '\t'

/-- Function `isOneCharToken`, `compiler.cpp` lines 29-32. -/
def isOneCharToken (a : Char) : Bool :=
  a == '[' || a == ']'

/-- The access `line[i]` of a `std::string`: the character at index `i`, and the
terminating null character for `i = line.size()`. -/
def charAt (line : List Char) (i : Nat) : Char :=
  line.getD i (Char.ofNat 0)

/-- First loop of `nextToken`, lines 38-41: `while (i < line.size() &&
isSeparator(line[i])) ++i`.  The first argument is the part of the line from
index `i` on; the value is the final `i`. -/
def skipSeparators : List Char → Nat → Nat
  | [], i => i
  | c :: rest, i => if isSeparator c then skipSeparators rest (i + 1) else i

/-- Second loop of `nextToken`, lines 49-53: `while (i < line.size() &&
!isSeparator(line[i]) && !isOneCharToken(line[i])) { result += line[i]; ++i; }`.
The first argument is the part of the line from index `i` on; the value is the
final `result` and the final `i`. -/
def readToken : List Char → List Char → Nat → List Char × Nat
  | [], result, i => (result, i)
  | c :: rest, result, i =>
    if !isSeparator c && !isOneCharToken c then readToken rest (result ++ [c]) (i + 1)
    else (result, i)

/-- Function `nextToken`, `compiler.cpp` lines 34-57.  The value is the returned
token and the line after `line = line.substr(i)`. -/
def nextToken (line : List Char) : List Char × List Char :=
  let i := skipSeparators line 0
  if isOneCharToken (charAt line i) then
    ([charAt line i], line.drop (i + 1))
  else
    let read := readToken (line.drop i) [] i
    (read.1, line.drop read.2)

/-- Function `parseLine`, `compiler.cpp` lines 123-141, with a bound on the number
of turns of its loop (`none` when the bound is used up with the line not yet
empty).  `parseLabel` and `parseInput` get a copy of the line, so they cannot
change the line of the loop; what they do to the tables of the compiler, or
the exception they throw, is the parameter of the same name, over a state
`σ` of the tables and a type `ε` of exceptions (`line_number` only enters
the text of their exceptions).  The keyword `let` has an empty branch. -/
def parseLine {σ ε : Type} (parseLabel parseInput : List Char → σ → Except ε σ) :
    Nat → List Char → σ → Option (Except ε σ)
  | _, [], state => some (Except.ok state)
  | 0, _ :: _, _ => none
  | fuel + 1, c :: cs, state =>
    let token := nextToken (c :: cs)
    if token.1 = "label".toList then
      match parseLabel token.2 state with
      | Except.error e => some (Except.error e)
      | Except.ok state1 => parseLine parseLabel parseInput fuel token.2 state1
    else if token.1 = "input".toList then
      match parseInput token.2 state with
      | Except.error e => some (Except.error e)
      | Except.ok state1 => parseLine parseLabel parseInput fuel token.2 state1
    else
      parseLine parseLabel parseInput fuel token.2 state

/-! ## Shared lemmas -/

theorem loadArgument_resolved {memory : List Nat} {flags mask raw value : Nat}
    (h : if flags &&& mask = 0 then value = raw else memory[raw]? = some value) :
    loadArgument memory flags mask raw = some (Except.ok value) := by
  unfold loadArgument
  by_cases hbit : flags &&& mask = 0
  · simp [hbit] at h ⊢
    exact h.symm
  · simp only [hbit, if_false] at h
    have hlt : raw < memory.length := by
      by_contra hge
      rw [List.getElem?_eq_none (by omega)] at h
      exact Option.noConfusion h
    simp [hbit, hlt, h, Nat.not_le.mpr hlt]

theorem loadArgument_violation {memory : List Nat} {flags mask raw : Nat}
    (hbit : flags &&& mask ≠ 0) (hraw : memory.length ≤ raw) :
    loadArgument memory flags mask raw
      = some (Except.error (Message.accessViolationOnRead raw)) := by
  unfold loadArgument
  simp [hbit, hraw]

theorem loadArgument_ne_none (memory : List Nat) (flags mask raw : Nat) :
    loadArgument memory flags mask raw ≠ none := by
  unfold loadArgument
  by_cases hbit : flags &&& mask = 0
  · simp [hbit]
  · by_cases hraw : memory.length ≤ raw
    · simp [hbit, hraw]
    · have hlt : raw < memory.length := by omega
      simp [hbit, hraw, List.getElem?_eq_getElem hlt]

theorem loadArgument_ok_iff {memory : List Nat} {flags mask raw value : Nat} :
    loadArgument memory flags mask raw = some (Except.ok value)
      ↔ (if flags &&& mask = 0 then value = raw else memory[raw]? = some value) := by
  constructor
  · intro h
    unfold loadArgument at h
    by_cases hbit : flags &&& mask = 0
    · simp [hbit] at h ⊢
      exact h.symm
    · by_cases hraw : memory.length ≤ raw
      · simp [hbit, hraw] at h
      · have hlt : raw < memory.length := by omega
        simp [hbit, hraw, List.getElem?_eq_getElem hlt] at h ⊢
        exact h
  · exact loadArgument_resolved

theorem loadArgument_error {memory : List Nat} {flags mask raw : Nat} {line : Message}
    (h : loadArgument memory flags mask raw = some (Except.error line)) :
    flags &&& mask ≠ 0 ∧ memory.length ≤ raw ∧ line = Message.accessViolationOnRead raw := by
  unfold loadArgument at h
  by_cases hbit : flags &&& mask = 0
  · simp [hbit] at h
  · by_cases hraw : memory.length ≤ raw
    · simp [hbit, hraw] at h
      exact ⟨hbit, hraw, h.symm⟩
    · have hlt : raw < memory.length := by omega
      simp [hbit, hraw, List.getElem?_eq_getElem hlt] at h

theorem getElem?_some_lt {memory : List Nat} {i v : Nat} (h : memory[i]? = some v) :
    i < memory.length := by
  by_contra hge
  rw [List.getElem?_eq_none (Nat.le_of_not_lt hge)] at h
  exact Option.noConfusion h

theorem executeInstruction_binary {memory : List Nat} {ip op_code : Nat}
    (hop : memory[ip]? = some op_code) (hrange : 1 ≤ op_code ∧ op_code ≤ 5) :
    executeInstruction memory ip = executeBinaryOperationAndAssignment memory ip := by
  have hlt := getElem?_some_lt hop
  obtain ⟨h1, h5⟩ := hrange
  unfold executeInstruction
  rw [if_neg (Nat.not_le.mpr hlt), hop]
  interval_cases op_code <;> rfl

theorem executeInstruction_if {memory : List Nat} {ip op_code : Nat}
    (hop : memory[ip]? = some op_code) (hrange : 6 ≤ op_code ∧ op_code ≤ 11) :
    executeInstruction memory ip = executeIf memory ip := by
  have hlt := getElem?_some_lt hop
  obtain ⟨h1, h5⟩ := hrange
  unfold executeInstruction
  rw [if_neg (Nat.not_le.mpr hlt), hop]
  interval_cases op_code <;> rfl

theorem executeInstruction_goto {memory : List Nat} {ip op_code : Nat}
    (hop : memory[ip]? = some op_code) (hrange : op_code = 12 ∨ op_code = 13) :
    executeInstruction memory ip = executeGoto memory ip := by
  have hlt := getElem?_some_lt hop
  unfold executeInstruction
  rw [if_neg (Nat.not_le.mpr hlt), hop]
  rcases hrange with h | h <;> subst h <;> rfl

theorem executeInstruction_allocate {memory : List Nat} {ip : Nat}
    (hop : memory[ip]? = some 14) :
    executeInstruction memory ip = executeAllocate memory ip := by
  have hlt := getElem?_some_lt hop
  unfold executeInstruction
  rw [if_neg (Nat.not_le.mpr hlt), hop]

theorem executeBinaryOperationAndAssignment_short {memory : List Nat} {ip : Nat}
    (h : memory.length < ip + 10) :
    executeBinaryOperationAndAssignment memory ip
      = some ⟨memory, ip, some Message.instructionIsNotComplete⟩ := by
  unfold executeBinaryOperationAndAssignment sizeofBinaryOperationAndAssignmentInstruction
  rw [if_neg (Nat.not_le.mpr h)]

theorem executeBinaryOperationAndAssignment_loaded {memory : List Nat}
    {ip op_code flags result_index a_raw b_raw a b : Nat}
    (hsize : ip + 10 ≤ memory.length)
    (hop : memory[ip]? = some op_code) (hflags : memory[ip + 1]? = some flags)
    (hres : memory[ip + 2]? = some result_index)
    (ha_raw : memory[ip + 3]? = some a_raw) (hb_raw : memory[ip + 4]? = some b_raw)
    (ha : loadArgument memory flags 1 a_raw = some (Except.ok a))
    (hb : loadArgument memory flags 2 b_raw = some (Except.ok b)) :
    executeBinaryOperationAndAssignment memory ip =
      match binaryOperation op_code a b with
      | Except.error line => some ⟨memory, ip, some line⟩
      | Except.ok result =>
        if memory.length ≤ result_index then
          some ⟨memory, ip, some (Message.accessViolationOnWrite a)⟩
        else
          some ⟨memory.set result_index result, ip + 10, none⟩ := by
  unfold executeBinaryOperationAndAssignment sizeofBinaryOperationAndAssignmentInstruction
  rw [if_pos hsize]
  simp only [hop, hflags, hres, ha_raw, hb_raw, ha, hb]
  cases binaryOperation op_code a b with
  | error line => rfl
  | ok result =>
    by_cases hri : memory.length ≤ result_index
    · simp [hri]
    · simp [hri, writeCell, Nat.lt_of_not_le hri]

theorem executeBinaryOperationAndAssignment_violation_a {memory : List Nat}
    {ip op_code flags result_index a_raw b_raw : Nat} {line : Message}
    (hsize : ip + 10 ≤ memory.length)
    (hop : memory[ip]? = some op_code) (hflags : memory[ip + 1]? = some flags)
    (hres : memory[ip + 2]? = some result_index)
    (ha_raw : memory[ip + 3]? = some a_raw) (hb_raw : memory[ip + 4]? = some b_raw)
    (ha : loadArgument memory flags 1 a_raw = some (Except.error line)) :
    executeBinaryOperationAndAssignment memory ip = some ⟨memory, ip, some line⟩ := by
  unfold executeBinaryOperationAndAssignment sizeofBinaryOperationAndAssignmentInstruction
  rw [if_pos hsize]
  simp only [hop, hflags, hres, ha_raw, hb_raw, ha]

theorem executeBinaryOperationAndAssignment_violation_b {memory : List Nat}
    {ip op_code flags result_index a_raw b_raw a : Nat} {line : Message}
    (hsize : ip + 10 ≤ memory.length)
    (hop : memory[ip]? = some op_code) (hflags : memory[ip + 1]? = some flags)
    (hres : memory[ip + 2]? = some result_index)
    (ha_raw : memory[ip + 3]? = some a_raw) (hb_raw : memory[ip + 4]? = some b_raw)
    (ha : loadArgument memory flags 1 a_raw = some (Except.ok a))
    (hb : loadArgument memory flags 2 b_raw = some (Except.error line)) :
    executeBinaryOperationAndAssignment memory ip = some ⟨memory, ip, some line⟩ := by
  unfold executeBinaryOperationAndAssignment sizeofBinaryOperationAndAssignmentInstruction
  rw [if_pos hsize]
  simp only [hop, hflags, hres, ha_raw, hb_raw, ha, hb]

theorem instruction_fields {memory : List Nat} {ip : Nat} (hsize : ip + 5 ≤ memory.length) :
    ∃ c0 c1 c2 c3 c4 : Nat, memory[ip]? = some c0 ∧ memory[ip + 1]? = some c1
      ∧ memory[ip + 2]? = some c2 ∧ memory[ip + 3]? = some c3 ∧ memory[ip + 4]? = some c4 :=
  ⟨_, _, _, _, _, List.getElem?_eq_getElem (by omega), List.getElem?_eq_getElem (by omega),
    List.getElem?_eq_getElem (by omega), List.getElem?_eq_getElem (by omega),
    List.getElem?_eq_getElem (by omega)⟩

theorem loadArgument_cases (memory : List Nat) (flags mask raw : Nat) :
    (flags &&& mask ≠ 0 ∧ memory.length ≤ raw
        ∧ loadArgument memory flags mask raw
            = some (Except.error (Message.accessViolationOnRead raw)))
      ∨ ∃ value, loadArgument memory flags mask raw = some (Except.ok value) := by
  rcases hload : loadArgument memory flags mask raw with _ | (line | value)
  · exact absurd hload (loadArgument_ne_none memory flags mask raw)
  · obtain ⟨hbit, hraw, hline⟩ := loadArgument_error hload
    exact Or.inl ⟨hbit, hraw, by rw [hline]⟩
  · exact Or.inr ⟨value, rfl⟩

/-- Every path of `executeBinaryOperationAndAssignment` past its size check. -/
theorem executeBinaryOperationAndAssignment_cases {memory : List Nat} {ip : Nat}
    (hsize : ip + 10 ≤ memory.length) :
    ∃ op_code flags result_index a_raw b_raw : Nat,
      memory[ip]? = some op_code ∧ memory[ip + 1]? = some flags
      ∧ memory[ip + 2]? = some result_index
      ∧ memory[ip + 3]? = some a_raw ∧ memory[ip + 4]? = some b_raw
      ∧ ((flags &&& 1 ≠ 0 ∧ memory.length ≤ a_raw
            ∧ executeBinaryOperationAndAssignment memory ip
                = some ⟨memory, ip, some (Message.accessViolationOnRead a_raw)⟩)
          ∨ ∃ a, loadArgument memory flags 1 a_raw = some (Except.ok a)
            ∧ ((flags &&& 2 ≠ 0 ∧ memory.length ≤ b_raw
                  ∧ executeBinaryOperationAndAssignment memory ip
                      = some ⟨memory, ip, some (Message.accessViolationOnRead b_raw)⟩)
                ∨ ∃ b, loadArgument memory flags 2 b_raw = some (Except.ok b)
                  ∧ executeBinaryOperationAndAssignment memory ip =
                      match binaryOperation op_code a b with
                      | Except.error line => some ⟨memory, ip, some line⟩
                      | Except.ok result =>
                        if memory.length ≤ result_index then
                          some ⟨memory, ip, some (Message.accessViolationOnWrite a)⟩
                        else
                          some ⟨memory.set result_index result, ip + 10, none⟩)) := by
  obtain ⟨op_code, flags, result_index, a_raw, b_raw, h0, h1, h2, h3, h4⟩ :=
    @instruction_fields memory ip (by omega)
  refine ⟨op_code, flags, result_index, a_raw, b_raw, h0, h1, h2, h3, h4, ?_⟩
  rcases loadArgument_cases memory flags 1 a_raw with ⟨hbit, hraw, hload⟩ | ⟨a, ha⟩
  · exact Or.inl ⟨hbit, hraw,
      executeBinaryOperationAndAssignment_violation_a hsize h0 h1 h2 h3 h4 hload⟩
  · refine Or.inr ⟨a, ha, ?_⟩
    rcases loadArgument_cases memory flags 2 b_raw with ⟨hbit, hraw, hload⟩ | ⟨b, hb⟩
    · exact Or.inl ⟨hbit, hraw,
        executeBinaryOperationAndAssignment_violation_b hsize h0 h1 h2 h3 h4 ha hload⟩
    · exact Or.inr ⟨b, hb,
        executeBinaryOperationAndAssignment_loaded hsize h0 h1 h2 h3 h4 ha hb⟩

theorem executeIf_short {memory : List Nat} {ip : Nat} (h : memory.length < ip + 10) :
    executeIf memory ip = some ⟨memory, ip, some Message.instructionIsNotComplete⟩ := by
  unfold executeIf sizeofIfInstruction
  rw [if_neg (Nat.not_le.mpr h)]

theorem executeIf_loaded {memory : List Nat}
    {ip op_code flags a_raw b_raw new_address a b : Nat}
    (hsize : ip + 10 ≤ memory.length)
    (hop : memory[ip]? = some op_code) (hflags : memory[ip + 1]? = some flags)
    (ha_raw : memory[ip + 2]? = some a_raw) (hb_raw : memory[ip + 3]? = some b_raw)
    (hnew : memory[ip + 4]? = some new_address)
    (ha : loadArgument memory flags 1 a_raw = some (Except.ok a))
    (hb : loadArgument memory flags 2 b_raw = some (Except.ok b)) :
    executeIf memory ip =
      match comparison op_code a b with
      | Except.error line => some ⟨memory, ip, some line⟩
      | Except.ok result =>
        if result then some ⟨memory, new_address, none⟩ else some ⟨memory, ip + 10, none⟩ := by
  unfold executeIf sizeofIfInstruction sizeofBinaryOperationAndAssignmentInstruction
  rw [if_pos hsize]
  simp only [hop, hflags, hnew, ha_raw, hb_raw, ha, hb]

theorem executeIf_violation_a {memory : List Nat}
    {ip op_code flags a_raw b_raw new_address : Nat} {line : Message}
    (hsize : ip + 10 ≤ memory.length)
    (hop : memory[ip]? = some op_code) (hflags : memory[ip + 1]? = some flags)
    (ha_raw : memory[ip + 2]? = some a_raw) (hb_raw : memory[ip + 3]? = some b_raw)
    (hnew : memory[ip + 4]? = some new_address)
    (ha : loadArgument memory flags 1 a_raw = some (Except.error line)) :
    executeIf memory ip = some ⟨memory, ip, some line⟩ := by
  unfold executeIf sizeofIfInstruction
  rw [if_pos hsize]
  simp only [hop, hflags, hnew, ha_raw, hb_raw, ha]

theorem executeIf_violation_b {memory : List Nat}
    {ip op_code flags a_raw b_raw new_address a : Nat} {line : Message}
    (hsize : ip + 10 ≤ memory.length)
    (hop : memory[ip]? = some op_code) (hflags : memory[ip + 1]? = some flags)
    (ha_raw : memory[ip + 2]? = some a_raw) (hb_raw : memory[ip + 3]? = some b_raw)
    (hnew : memory[ip + 4]? = some new_address)
    (ha : loadArgument memory flags 1 a_raw = some (Except.ok a))
    (hb : loadArgument memory flags 2 b_raw = some (Except.error line)) :
    executeIf memory ip = some ⟨memory, ip, some line⟩ := by
  unfold executeIf sizeofIfInstruction
  rw [if_pos hsize]
  simp only [hop, hflags, hnew, ha_raw, hb_raw, ha, hb]

/-- Every path of `executeIf` past its size check. -/
theorem executeIf_cases {memory : List Nat} {ip : Nat} (hsize : ip + 10 ≤ memory.length) :
    ∃ op_code flags a_raw b_raw new_address : Nat,
      memory[ip]? = some op_code ∧ memory[ip + 1]? = some flags
      ∧ memory[ip + 2]? = some a_raw ∧ memory[ip + 3]? = some b_raw
      ∧ memory[ip + 4]? = some new_address
      ∧ ((flags &&& 1 ≠ 0 ∧ memory.length ≤ a_raw
            ∧ executeIf memory ip
                = some ⟨memory, ip, some (Message.accessViolationOnRead a_raw)⟩)
          ∨ ∃ a, loadArgument memory flags 1 a_raw = some (Except.ok a)
            ∧ ((flags &&& 2 ≠ 0 ∧ memory.length ≤ b_raw
                  ∧ executeIf memory ip
                      = some ⟨memory, ip, some (Message.accessViolationOnRead b_raw)⟩)
                ∨ ∃ b, loadArgument memory flags 2 b_raw = some (Except.ok b)
                  ∧ executeIf memory ip =
                      match comparison op_code a b with
                      | Except.error line => some ⟨memory, ip, some line⟩
                      | Except.ok result =>
                        if result then some ⟨memory, new_address, none⟩
                        else some ⟨memory, ip + 10, none⟩)) := by
  obtain ⟨op_code, flags, a_raw, b_raw, new_address, h0, h1, h2, h3, h4⟩ :=
    @instruction_fields memory ip (by omega)
  refine ⟨op_code, flags, a_raw, b_raw, new_address, h0, h1, h2, h3, h4, ?_⟩
  rcases loadArgument_cases memory flags 1 a_raw with ⟨hbit, hraw, hload⟩ | ⟨a, ha⟩
  · exact Or.inl ⟨hbit, hraw, executeIf_violation_a hsize h0 h1 h2 h3 h4 hload⟩
  · refine Or.inr ⟨a, ha, ?_⟩
    rcases loadArgument_cases memory flags 2 b_raw with ⟨hbit, hraw, hload⟩ | ⟨b, hb⟩
    · exact Or.inl ⟨hbit, hraw, executeIf_violation_b hsize h0 h1 h2 h3 h4 ha hload⟩
    · exact Or.inr ⟨b, hb, executeIf_loaded hsize h0 h1 h2 h3 h4 ha hb⟩

theorem comparison_ok {op_code : Nat} (a b : Nat) (hrange : 6 ≤ op_code ∧ op_code ≤ 11) :
    ∃ result : Bool, comparison op_code a b = Except.ok result
      ∧ (result = true ↔ (op_code = 6 ∧ a < b) ∨ (op_code = 7 ∧ a ≤ b) ∨ (op_code = 8 ∧ a = b)
          ∨ (op_code = 9 ∧ a ≠ b) ∨ (op_code = 10 ∧ a > b) ∨ (op_code = 11 ∧ a ≥ b)) := by
  obtain ⟨h6, h11⟩ := hrange
  interval_cases op_code <;> exact ⟨_, rfl, by simp⟩

theorem executeGoto_short {memory : List Nat} {ip : Nat} (h : memory.length < ip + 4) :
    executeGoto memory ip = some ⟨memory, ip, some Message.instructionIsNotComplete⟩ := by
  unfold executeGoto sizeofGotoInstruction
  rw [if_neg (Nat.not_le.mpr h)]

theorem executeGoto_direct {memory : List Nat} {ip new_address : Nat}
    (hsize : ip + 4 ≤ memory.length)
    (hop : memory[ip]? = some 12) (hnew : memory[ip + 1]? = some new_address) :
    executeGoto memory ip = some ⟨memory, new_address, none⟩ := by
  unfold executeGoto sizeofGotoInstruction
  rw [if_pos hsize]
  simp only [hop, hnew]

theorem executeGoto_indirect {memory : List Nat} {ip index new_address : Nat}
    (hsize : ip + 4 ≤ memory.length)
    (hop : memory[ip]? = some 13) (hindex : memory[ip + 1]? = some index)
    (hnew : memory[index]? = some new_address) :
    executeGoto memory ip = some ⟨memory, new_address, none⟩ := by
  unfold executeGoto sizeofGotoInstruction
  rw [if_pos hsize]
  simp only [hop, hindex]
  rw [if_neg (Nat.not_le.mpr (getElem?_some_lt hnew))]
  simp only [hnew]

theorem executeGoto_violation {memory : List Nat} {ip index : Nat}
    (hsize : ip + 4 ≤ memory.length)
    (hop : memory[ip]? = some 13) (hindex : memory[ip + 1]? = some index)
    (hout : memory.length ≤ index) :
    executeGoto memory ip = some ⟨memory, ip, some (Message.accessViolationOnRead index)⟩ := by
  unfold executeGoto sizeofGotoInstruction
  rw [if_pos hsize]
  simp only [hop, hindex]
  rw [if_pos hout]

theorem executeAllocate_short {memory : List Nat} {ip : Nat}
    (h : memory.length < ip + 4) :
    executeAllocate memory ip = some ⟨memory, ip, some Message.instructionIsNotComplete⟩ := by
  unfold executeAllocate sizeofAllocateInstruction
  rw [if_neg (Nat.not_le.mpr h)]

theorem executeAllocate_violation {memory : List Nat} {ip variable_index : Nat}
    (hsize : ip + 4 ≤ memory.length) (hindex : memory[ip + 1]? = some variable_index)
    (hout : memory.length ≤ variable_index) :
    executeAllocate memory ip
      = some ⟨memory, ip, some (Message.accessViolationOnRead variable_index)⟩ := by
  unfold executeAllocate sizeofAllocateInstruction
  rw [if_pos hsize]
  simp only [hindex]
  rw [if_pos hout]

theorem executeAllocate_read {memory : List Nat} {ip variable_index amount : Nat}
    (hsize : ip + 4 ≤ memory.length) (hindex : memory[ip + 1]? = some variable_index)
    (hamount : memory[variable_index]? = some amount) :
    executeAllocate memory ip =
      if 4294967295 ≤ amount + memory.length then
        some ⟨memory, ip, some (Message.memoryIsExhausted (amount + memory.length))⟩
      else
        some ⟨memory ++ List.replicate amount 0, ip + 10, none⟩ := by
  unfold executeAllocate sizeofAllocateInstruction sizeofBinaryOperationAndAssignmentInstruction
    maxDataTypeMax
  rw [if_pos hsize]
  simp only [hindex]
  rw [if_neg (Nat.not_le.mpr (getElem?_some_lt hamount))]
  simp only [hamount]
  by_cases hcap : 4294967295 ≤ amount + memory.length
  · simp [hcap]
  · have htake : List.take (amount + memory.length) memory = memory :=
      List.take_of_length_le (Nat.le_add_left _ _)
    simp [hcap, resize, htake]

/-- The dispatch of `executeInstruction`, by the value of the cell at `ip`. -/
theorem executeInstruction_cases (memory : List Nat) (ip : Nat) :
    (memory.length ≤ ip
        ∧ executeInstruction memory ip = some ⟨memory, ip, some Message.programCompletedAbnormal⟩)
      ∨ ∃ op_code : Nat, memory[ip]? = some op_code
        ∧ ((op_code = 0 ∧ executeInstruction memory ip = executeNop memory ip)
          ∨ (1 ≤ op_code ∧ op_code ≤ 5
              ∧ executeInstruction memory ip = executeBinaryOperationAndAssignment memory ip)
          ∨ (6 ≤ op_code ∧ op_code ≤ 11 ∧ executeInstruction memory ip = executeIf memory ip)
          ∨ ((op_code = 12 ∨ op_code = 13)
              ∧ executeInstruction memory ip = executeGoto memory ip)
          ∨ (op_code = 14 ∧ executeInstruction memory ip = executeAllocate memory ip)
          ∨ (op_code = 15 ∧ executeInstruction memory ip
                = some ⟨memory, ip, some Message.programCompletedSuccessfully⟩)
          ∨ (16 ≤ op_code ∧ executeInstruction memory ip
                = some ⟨memory, ip, some (Message.invalidOpcode op_code)⟩)) := by
  by_cases hip : memory.length ≤ ip
  · left
    refine ⟨hip, ?_⟩
    unfold executeInstruction
    rw [if_pos hip]
  · right
    have hlt : ip < memory.length := Nat.lt_of_not_le hip
    obtain ⟨op_code, hop⟩ : ∃ op_code : Nat, memory[ip]? = some op_code :=
      ⟨_, List.getElem?_eq_getElem hlt⟩
    refine ⟨op_code, hop, ?_⟩
    have hsplit : op_code = 0 ∨ (1 ≤ op_code ∧ op_code ≤ 5) ∨ (6 ≤ op_code ∧ op_code ≤ 11)
        ∨ (op_code = 12 ∨ op_code = 13) ∨ op_code = 14 ∨ op_code = 15 ∨ 16 ≤ op_code := by
      omega
    rcases hsplit with h | h | h | h | h | h | h
    · subst h
      refine Or.inl ⟨rfl, ?_⟩
      unfold executeInstruction
      rw [if_neg hip, hop]
    · exact Or.inr (Or.inl ⟨h.1, h.2, executeInstruction_binary hop h⟩)
    · exact Or.inr (Or.inr (Or.inl ⟨h.1, h.2, executeInstruction_if hop h⟩))
    · exact Or.inr (Or.inr (Or.inr (Or.inl ⟨h, executeInstruction_goto hop h⟩)))
    · subst h
      exact Or.inr (Or.inr (Or.inr (Or.inr (Or.inl ⟨rfl, executeInstruction_allocate hop⟩))))
    · subst h
      refine Or.inr (Or.inr (Or.inr (Or.inr (Or.inr (Or.inl ⟨rfl, ?_⟩)))))
      unfold executeInstruction
      rw [if_neg hip, hop]
    · refine Or.inr (Or.inr (Or.inr (Or.inr (Or.inr (Or.inr ⟨h, ?_⟩)))))
      unfold executeInstruction
      rw [if_neg hip, hop]
      simp only
      split <;> first | omega | rfl

theorem executeBinaryOperationAndAssignment_halt {memory : List Nat} {ip : Nat}
    {r : StepResult} (h : executeBinaryOperationAndAssignment memory ip = some r)
    (hhalt : r.halt ≠ none) : r.memory = memory ∧ r.ip = ip := by
  by_cases hsize : ip + 10 ≤ memory.length
  · obtain ⟨op_code, flags, result_index, a_raw, b_raw, _, _, _, _, _, hcases⟩ :=
      executeBinaryOperationAndAssignment_cases hsize
    rcases hcases with ⟨_, _, hexec⟩ | ⟨a, _, ⟨_, _, hexec⟩ | ⟨b, _, hexec⟩⟩
    · rw [hexec] at h
      rw [← Option.some.inj h]
      exact ⟨rfl, rfl⟩
    · rw [hexec] at h
      rw [← Option.some.inj h]
      exact ⟨rfl, rfl⟩
    · rw [hexec] at h
      rcases hbin : binaryOperation op_code a b with line | value
      · rw [hbin] at h
        rw [← Option.some.inj h]
        exact ⟨rfl, rfl⟩
      · rw [hbin] at h
        by_cases hri : memory.length ≤ result_index
        · simp only [hri, if_true] at h
          rw [← Option.some.inj h]
          exact ⟨rfl, rfl⟩
        · simp only [hri, if_false] at h
          rw [← Option.some.inj h] at hhalt
          exact absurd rfl hhalt
  · rw [executeBinaryOperationAndAssignment_short (Nat.lt_of_not_le hsize)] at h
    rw [← Option.some.inj h]
    exact ⟨rfl, rfl⟩

theorem executeIf_halt {memory : List Nat} {ip : Nat} {r : StepResult}
    (h : executeIf memory ip = some r) (hhalt : r.halt ≠ none) :
    r.memory = memory ∧ r.ip = ip := by
  by_cases hsize : ip + 10 ≤ memory.length
  · obtain ⟨op_code, flags, a_raw, b_raw, new_address, _, _, _, _, _, hcases⟩ :=
      executeIf_cases hsize
    rcases hcases with ⟨_, _, hexec⟩ | ⟨a, _, ⟨_, _, hexec⟩ | ⟨b, _, hexec⟩⟩
    · rw [hexec] at h
      rw [← Option.some.inj h]
      exact ⟨rfl, rfl⟩
    · rw [hexec] at h
      rw [← Option.some.inj h]
      exact ⟨rfl, rfl⟩
    · rw [hexec] at h
      rcases hcmp : comparison op_code a b with line | result
      · rw [hcmp] at h
        rw [← Option.some.inj h]
        exact ⟨rfl, rfl⟩
      · rw [hcmp] at h
        cases result
        · simp only [Bool.false_eq_true, if_false] at h
          rw [← Option.some.inj h] at hhalt
          exact absurd rfl hhalt
        · simp only [if_true] at h
          rw [← Option.some.inj h] at hhalt
          exact absurd rfl hhalt
  · rw [executeIf_short (Nat.lt_of_not_le hsize)] at h
    rw [← Option.some.inj h]
    exact ⟨rfl, rfl⟩

theorem executeGoto_halt {memory : List Nat} {ip : Nat} {r : StepResult}
    (h : executeGoto memory ip = some r) (hhalt : r.halt ≠ none) :
    r.memory = memory ∧ r.ip = ip := by
  unfold executeGoto at h
  split at h
  · split at h
    · split at h
      · rw [← Option.some.inj h] at hhalt
        exact absurd rfl hhalt
      · split at h
        · rw [← Option.some.inj h]
          exact ⟨rfl, rfl⟩
        · split at h
          · exact Option.noConfusion h
          · rw [← Option.some.inj h] at hhalt
            exact absurd rfl hhalt
      · rw [← Option.some.inj h]
        exact ⟨rfl, rfl⟩
    · exact Option.noConfusion h
  · rw [← Option.some.inj h]
    exact ⟨rfl, rfl⟩

theorem executeAllocate_halt {memory : List Nat} {ip : Nat} {r : StepResult}
    (h : executeAllocate memory ip = some r) (hhalt : r.halt ≠ none) :
    r.memory = memory ∧ r.ip = ip := by
  unfold executeAllocate at h
  split at h
  · split at h
    · exact Option.noConfusion h
    · split at h
      · rw [← Option.some.inj h]
        exact ⟨rfl, rfl⟩
      · split at h
        · exact Option.noConfusion h
        · simp only at h
          split at h
          · rw [← Option.some.inj h]
            exact ⟨rfl, rfl⟩
          · rw [← Option.some.inj h] at hhalt
            exact absurd rfl hhalt
  · rw [← Option.some.inj h]
    exact ⟨rfl, rfl⟩

theorem binaryOperation_error {op_code a b : Nat} {line : Message}
    (h : binaryOperation op_code a b = Except.error line) :
    line = Message.divisionByZero ∨ line = Message.invalidOpcode op_code := by
  unfold binaryOperation at h
  split at h
  · exact Except.noConfusion h
  · exact Except.noConfusion h
  · exact Except.noConfusion h
  · split at h
    · exact Or.inl (Except.error.inj h).symm
    · exact Except.noConfusion h
  · split at h
    · exact Or.inl (Except.error.inj h).symm
    · exact Except.noConfusion h
  · exact Or.inr (Except.error.inj h).symm

theorem comparison_error {op_code a b : Nat} {line : Message}
    (h : comparison op_code a b = Except.error line) :
    line = Message.invalidOpcode op_code := by
  unfold comparison at h
  split at h
  · exact Except.noConfusion h
  · exact Except.noConfusion h
  · exact Except.noConfusion h
  · exact Except.noConfusion h
  · exact Except.noConfusion h
  · exact Except.noConfusion h
  · exact (Except.error.inj h).symm

theorem executeBinaryOperationAndAssignment_complete {memory : List Nat} {ip : Nat}
    {r : StepResult} (hsize : ip + 10 ≤ memory.length)
    (h : executeBinaryOperationAndAssignment memory ip = some r) :
    r.halt ≠ some Message.instructionIsNotComplete := by
  obtain ⟨op_code, flags, result_index, a_raw, b_raw, _, _, _, _, _, hcases⟩ :=
    executeBinaryOperationAndAssignment_cases hsize
  rcases hcases with ⟨_, _, hexec⟩ | ⟨a, _, ⟨_, _, hexec⟩ | ⟨b, _, hexec⟩⟩
  · rw [hexec] at h
    rw [← Option.some.inj h]
    simp
  · rw [hexec] at h
    rw [← Option.some.inj h]
    simp
  · rw [hexec] at h
    rcases hbin : binaryOperation op_code a b with line | value
    · rw [hbin] at h
      rw [← Option.some.inj h]
      rcases binaryOperation_error hbin with hl | hl <;> simp [hl]
    · rw [hbin] at h
      by_cases hri : memory.length ≤ result_index
      · simp only [hri, if_true] at h
        rw [← Option.some.inj h]
        simp
      · simp only [hri, if_false] at h
        rw [← Option.some.inj h]
        simp

theorem executeIf_complete {memory : List Nat} {ip : Nat} {r : StepResult}
    (hsize : ip + 10 ≤ memory.length) (h : executeIf memory ip = some r) :
    r.halt ≠ some Message.instructionIsNotComplete := by
  obtain ⟨op_code, flags, a_raw, b_raw, new_address, _, _, _, _, _, hcases⟩ :=
    executeIf_cases hsize
  rcases hcases with ⟨_, _, hexec⟩ | ⟨a, _, ⟨_, _, hexec⟩ | ⟨b, _, hexec⟩⟩
  · rw [hexec] at h
    rw [← Option.some.inj h]
    simp
  · rw [hexec] at h
    rw [← Option.some.inj h]
    simp
  · rw [hexec] at h
    rcases hcmp : comparison op_code a b with line | result
    · rw [hcmp] at h
      rw [← Option.some.inj h]
      simp [comparison_error hcmp]
    · rw [hcmp] at h
      cases result
      · simp only [Bool.false_eq_true, if_false] at h
        rw [← Option.some.inj h]
        simp
      · simp only [if_true] at h
        rw [← Option.some.inj h]
        simp

theorem executeGoto_complete {memory : List Nat} {ip : Nat} {r : StepResult}
    (hsize : ip + 4 ≤ memory.length) (h : executeGoto memory ip = some r) :
    r.halt ≠ some Message.instructionIsNotComplete := by
  unfold executeGoto sizeofGotoInstruction at h
  rw [if_pos hsize] at h
  split at h
  · split at h
    · rw [← Option.some.inj h]
      simp
    · split at h
      · rw [← Option.some.inj h]
        simp
      · split at h
        · exact Option.noConfusion h
        · rw [← Option.some.inj h]
          simp
    · rw [← Option.some.inj h]
      simp
  · exact Option.noConfusion h

theorem executeAllocate_complete {memory : List Nat} {ip : Nat} {r : StepResult}
    (hsize : ip + 4 ≤ memory.length) (h : executeAllocate memory ip = some r) :
    r.halt ≠ some Message.instructionIsNotComplete := by
  unfold executeAllocate sizeofAllocateInstruction at h
  rw [if_pos hsize] at h
  split at h
  · exact Option.noConfusion h
  · split at h
    · rw [← Option.some.inj h]
      simp
    · split at h
      · exact Option.noConfusion h
      · simp only at h
        split at h
        · rw [← Option.some.inj h]
          simp
        · rw [← Option.some.inj h]
          simp

/-- The condition under which a step prints "Instruction is not complete": the
cell at `ip` is an arithmetic or conditional opcode and fewer than 10 cells
remain from `ip`, or it is Goto, IndirectGoto or Allocate and fewer than 4
cells remain. -/
theorem instructionIsNotComplete_iff (memory : List Nat) (ip : Nat) :
    executeInstruction memory ip = some ⟨memory, ip, some Message.instructionIsNotComplete⟩
      ↔ ∃ op_code : Nat, memory[ip]? = some op_code
        ∧ ((1 ≤ op_code ∧ op_code ≤ 11 ∧ memory.length < ip + 10)
          ∨ (12 ≤ op_code ∧ op_code ≤ 14 ∧ memory.length < ip + 4)) := by
  constructor
  · intro hstep
    rcases executeInstruction_cases memory ip with ⟨_, hexec⟩ | ⟨op_code, hop, hcases⟩
    · rw [hexec] at hstep
      simp at hstep
    · refine ⟨op_code, hop, ?_⟩
      rcases hcases with ⟨_, hexec⟩ | ⟨h1, h5, hexec⟩ | ⟨h6, h11, hexec⟩ | ⟨h, hexec⟩
        | ⟨h, hexec⟩ | ⟨_, hexec⟩ | ⟨_, hexec⟩
      · rw [hexec] at hstep
        simp [executeNop] at hstep
      · rw [hexec] at hstep
        refine Or.inl ⟨h1, by omega, ?_⟩
        by_contra hsize
        exact executeBinaryOperationAndAssignment_complete (Nat.le_of_not_lt hsize) hstep rfl
      · rw [hexec] at hstep
        refine Or.inl ⟨by omega, h11, ?_⟩
        by_contra hsize
        exact executeIf_complete (Nat.le_of_not_lt hsize) hstep rfl
      · rw [hexec] at hstep
        refine Or.inr ⟨by omega, by omega, ?_⟩
        by_contra hsize
        exact executeGoto_complete (Nat.le_of_not_lt hsize) hstep rfl
      · rw [hexec] at hstep
        refine Or.inr ⟨by omega, by omega, ?_⟩
        by_contra hsize
        exact executeAllocate_complete (Nat.le_of_not_lt hsize) hstep rfl
      · rw [hexec] at hstep
        simp at hstep
      · rw [hexec] at hstep
        simp at hstep
  · rintro ⟨op_code, hop, ⟨h1, h11, hshort⟩ | ⟨h12, h14, hshort⟩⟩
    · by_cases h5 : op_code ≤ 5
      · rw [executeInstruction_binary hop ⟨h1, h5⟩]
        exact executeBinaryOperationAndAssignment_short hshort
      · rw [executeInstruction_if hop ⟨by omega, h11⟩]
        exact executeIf_short hshort
    · by_cases h13 : op_code ≤ 13
      · rw [executeInstruction_goto hop (by omega)]
        exact executeGoto_short hshort
      · have h : op_code = 14 := by omega
        subst h
        rw [executeInstruction_allocate hop]
        exact executeAllocate_short hshort

theorem binaryOperation_ok {op_code a b value : Nat} (hrange : 1 ≤ op_code ∧ op_code ≤ 5)
    (h : binaryOperation op_code a b = Except.ok value) :
    (op_code = 1 ∧ value = (a + b) % 65536)
      ∨ (op_code = 2 ∧ (value : Int) = ((a : Int) - (b : Int)) % 65536)
      ∨ (op_code = 3 ∧ value = (a * b) % 65536)
      ∨ (op_code = 4 ∧ b ≠ 0 ∧ value = (a / b) % 65536)
      ∨ (op_code = 5 ∧ b ≠ 0 ∧ value = (a % b) % 65536) := by
  obtain ⟨h1, h5⟩ := hrange
  interval_cases op_code
  · simp only [binaryOperation, dataTypeModulus, Except.ok.injEq] at h
    exact Or.inl ⟨rfl, h.symm⟩
  · simp only [binaryOperation, dataTypeModulus, Except.ok.injEq] at h
    refine Or.inr (Or.inl ⟨rfl, ?_⟩)
    rw [← h]
    exact Int.toNat_of_nonneg (Int.emod_nonneg _ (by norm_num))
  · simp only [binaryOperation, dataTypeModulus, Except.ok.injEq] at h
    exact Or.inr (Or.inr (Or.inl ⟨rfl, h.symm⟩))
  · by_cases hb : b = 0
    · simp [binaryOperation, hb] at h
    · simp only [binaryOperation, dataTypeModulus, hb, if_false, Except.ok.injEq] at h
      exact Or.inr (Or.inr (Or.inr (Or.inl ⟨rfl, hb, h.symm⟩)))
  · by_cases hb : b = 0
    · simp [binaryOperation, hb] at h
    · simp only [binaryOperation, dataTypeModulus, hb, if_false, Except.ok.injEq] at h
      exact Or.inr (Or.inr (Or.inr (Or.inr ⟨rfl, hb, h.symm⟩)))

theorem binaryOperation_wraps {op_code : Nat} (a b : Nat) (hrange : 1 ≤ op_code ∧ op_code ≤ 3) :
    ∃ value, binaryOperation op_code a b = Except.ok value := by
  obtain ⟨h1, h3⟩ := hrange
  interval_cases op_code <;> exact ⟨_, rfl⟩

/-! ## Arithmetic instructions -/

/-- C1. A step on Add, Sub, Mul, Div or Mod (opcodes 1 to 5) that does not stop
leaves a memory of the same length that is the old memory with the cell at
`result_index` replaced by the result reduced modulo `2 ^ 16`, the operands
`a` and `b` being resolved against the old memory; every other cell is as
before.  And for Add, Sub and Mul a complete instruction whose operands resolve
and whose `result_index` is in range never stops, however large the
mathematical result. -/
theorem arithmetic_step_stores_wrapped_result (memory : List Nat) (ip op_code : Nat)
    (hop : memory[ip]? = some op_code) (hrange : 1 ≤ op_code ∧ op_code ≤ 5) :
    (∀ r : StepResult, executeInstruction memory ip = some r → r.halt = none →
      ∃ flags result_index a_raw b_raw a b value : Nat,
        memory[ip + 1]? = some flags ∧ memory[ip + 2]? = some result_index
        ∧ memory[ip + 3]? = some a_raw ∧ memory[ip + 4]? = some b_raw
        ∧ (if flags &&& 1 = 0 then a = a_raw else memory[a_raw]? = some a)
        ∧ (if flags &&& 2 = 0 then b = b_raw else memory[b_raw]? = some b)
        ∧ ((op_code = 1 ∧ value = (a + b) % 65536)
            ∨ (op_code = 2 ∧ (value : Int) = ((a : Int) - (b : Int)) % 65536)
            ∨ (op_code = 3 ∧ value = (a * b) % 65536)
            ∨ (op_code = 4 ∧ b ≠ 0 ∧ value = (a / b) % 65536)
            ∨ (op_code = 5 ∧ b ≠ 0 ∧ value = (a % b) % 65536))
        ∧ result_index < memory.length
        ∧ r.memory = memory.set result_index value
        ∧ r.memory.length = memory.length
        ∧ r.memory[result_index]? = some value
        ∧ ∀ i, i ≠ result_index → r.memory[i]? = memory[i]?)
    ∧ (op_code ≤ 3 →
        executeInstruction memory ip ≠ some ⟨memory, ip, some Message.instructionIsNotComplete⟩ →
        ∀ flags result_index a_raw b_raw a b : Nat,
          memory[ip + 1]? = some flags → memory[ip + 2]? = some result_index →
          memory[ip + 3]? = some a_raw → memory[ip + 4]? = some b_raw →
          (if flags &&& 1 = 0 then a = a_raw else memory[a_raw]? = some a) →
          (if flags &&& 2 = 0 then b = b_raw else memory[b_raw]? = some b) →
          result_index < memory.length →
          ∃ r : StepResult, executeInstruction memory ip = some r ∧ r.halt = none) := by
  rw [executeInstruction_binary hop hrange]
  constructor
  · intro r hstep hok
    by_cases hsize : ip + 10 ≤ memory.length
    · obtain ⟨op1, flags, result_index, a_raw, b_raw, h0, h1, h2, h3, h4, hcases⟩ :=
        executeBinaryOperationAndAssignment_cases hsize
      have hop1 : op1 = op_code := Option.some.inj (h0.symm.trans hop)
      subst hop1
      rcases hcases with ⟨_, _, hexec⟩ | ⟨a, ha, ⟨_, _, hexec⟩ | ⟨b, hb, hexec⟩⟩
      · rw [hexec] at hstep
        rw [← Option.some.inj hstep] at hok
        exact Option.noConfusion hok
      · rw [hexec] at hstep
        rw [← Option.some.inj hstep] at hok
        exact Option.noConfusion hok
      · rw [hexec] at hstep
        rcases hbin : binaryOperation op1 a b with line | value
        · rw [hbin] at hstep
          rw [← Option.some.inj hstep] at hok
          exact Option.noConfusion hok
        · rw [hbin] at hstep
          by_cases hri : memory.length ≤ result_index
          · simp only [hri, if_true] at hstep
            rw [← Option.some.inj hstep] at hok
            exact Option.noConfusion hok
          · simp only [hri, if_false] at hstep
            have hr := Option.some.inj hstep
            have hlt : result_index < memory.length := Nat.lt_of_not_le hri
            refine ⟨flags, result_index, a_raw, b_raw, a, b, value, h1, h2, h3, h4,
              loadArgument_ok_iff.mp ha, loadArgument_ok_iff.mp hb,
              binaryOperation_ok hrange hbin, hlt, ?_, ?_, ?_, ?_⟩
            · rw [← hr]
            · rw [← hr]
              exact List.length_set _ _ _
            · rw [← hr]
              simp [List.getElem?_set, hlt]
            · intro i hi
              rw [← hr]
              simp [List.getElem?_set, Ne.symm hi]
    · rw [executeBinaryOperationAndAssignment_short (Nat.lt_of_not_le hsize)] at hstep
      rw [← Option.some.inj hstep] at hok
      exact Option.noConfusion hok
  · intro h3 hcomplete flags result_index a_raw b_raw a b h1 h2 ha_raw hb_raw ha hb hlt
    have hsize : ip + 10 ≤ memory.length := by
      by_contra hshort
      exact hcomplete (executeBinaryOperationAndAssignment_short (Nat.lt_of_not_le hshort))
    rw [executeBinaryOperationAndAssignment_loaded hsize hop h1 h2 ha_raw hb_raw
      (loadArgument_resolved ha) (loadArgument_resolved hb)]
    obtain ⟨value, hvalue⟩ := binaryOperation_wraps a b ⟨hrange.1, h3⟩
    rw [hvalue]
    exact ⟨⟨memory.set result_index value, ip + 10, none⟩,
      by simp [Nat.not_le.mpr hlt], rfl⟩

/-- Witness for C1: Add of the immediates 65535 and 2 into cell 9 stores 1. -/
theorem arithmetic_step_stores_wrapped_result_witness :
    ([1, 0, 9, 65535, 2, 0, 0, 0, 0, 0] : List Nat)[0]? = some 1
    ∧ executeInstruction [1, 0, 9, 65535, 2, 0, 0, 0, 0, 0] 0
        = some ⟨[1, 0, 9, 65535, 2, 0, 0, 0, 0, 1], 10, none⟩
    ∧ ∃ flags result_index a_raw b_raw a b value : Nat,
        ([1, 0, 9, 65535, 2, 0, 0, 0, 0, 0] : List Nat)[0 + 1]? = some flags
        ∧ ([1, 0, 9, 65535, 2, 0, 0, 0, 0, 0] : List Nat)[0 + 2]? = some result_index
        ∧ ([1, 0, 9, 65535, 2, 0, 0, 0, 0, 0] : List Nat)[0 + 3]? = some a_raw
        ∧ ([1, 0, 9, 65535, 2, 0, 0, 0, 0, 0] : List Nat)[0 + 4]? = some b_raw
        ∧ (if flags &&& 1 = 0 then a = a_raw
            else ([1, 0, 9, 65535, 2, 0, 0, 0, 0, 0] : List Nat)[a_raw]? = some a)
        ∧ (if flags &&& 2 = 0 then b = b_raw
            else ([1, 0, 9, 65535, 2, 0, 0, 0, 0, 0] : List Nat)[b_raw]? = some b)
        ∧ ((1 = 1 ∧ value = (a + b) % 65536)
            ∨ (1 = 2 ∧ (value : Int) = ((a : Int) - (b : Int)) % 65536)
            ∨ (1 = 3 ∧ value = (a * b) % 65536)
            ∨ (1 = 4 ∧ b ≠ 0 ∧ value = (a / b) % 65536)
            ∨ (1 = 5 ∧ b ≠ 0 ∧ value = (a % b) % 65536))
        ∧ result_index < ([1, 0, 9, 65535, 2, 0, 0, 0, 0, 0] : List Nat).length
        ∧ [1, 0, 9, 65535, 2, 0, 0, 0, 0, 1]
            = ([1, 0, 9, 65535, 2, 0, 0, 0, 0, 0] : List Nat).set result_index value
        ∧ ([1, 0, 9, 65535, 2, 0, 0, 0, 0, 1] : List Nat).length
            = ([1, 0, 9, 65535, 2, 0, 0, 0, 0, 0] : List Nat).length
        ∧ ([1, 0, 9, 65535, 2, 0, 0, 0, 0, 1] : List Nat)[result_index]? = some value
        ∧ ∀ i, i ≠ result_index → ([1, 0, 9, 65535, 2, 0, 0, 0, 0, 1] : List Nat)[i]?
            = ([1, 0, 9, 65535, 2, 0, 0, 0, 0, 0] : List Nat)[i]? :=
  ⟨by decide, by decide,
    (arithmetic_step_stores_wrapped_result [1, 0, 9, 65535, 2, 0, 0, 0, 0, 0] 0 1
      (by decide) (by decide)).1 ⟨[1, 0, 9, 65535, 2, 0, 0, 0, 0, 1], 10, none⟩ (by decide) rfl⟩

/-- C2. A Div or Mod (opcode 4 or 5) that is not reported as incomplete and whose
operands resolve, the divisor to 0, stops with "Division by zero"; the memory
(every cell and the length) and `ip` are as before the step. -/
theorem division_by_zero_halts_unchanged (memory : List Nat)
    (ip op_code flags result_index a_raw b_raw a : Nat)
    (hop : memory[ip]? = some op_code) (hdiv : op_code = 4 ∨ op_code = 5)
    (hcomplete : executeInstruction memory ip
      ≠ some ⟨memory, ip, some Message.instructionIsNotComplete⟩)
    (hflags : memory[ip + 1]? = some flags) (hres : memory[ip + 2]? = some result_index)
    (ha_raw : memory[ip + 3]? = some a_raw) (hb_raw : memory[ip + 4]? = some b_raw)
    (ha : if flags &&& 1 = 0 then a = a_raw else memory[a_raw]? = some a)
    (hb : if flags &&& 2 = 0 then 0 = b_raw else memory[b_raw]? = some 0) :
    executeInstruction memory ip = some ⟨memory, ip, some Message.divisionByZero⟩ := by
  have hrange : 1 ≤ op_code ∧ op_code ≤ 5 := by omega
  rw [executeInstruction_binary hop hrange] at hcomplete ⊢
  have hsize : ip + 10 ≤ memory.length := by
    by_contra hshort
    exact hcomplete (executeBinaryOperationAndAssignment_short (Nat.lt_of_not_le hshort))
  rw [executeBinaryOperationAndAssignment_loaded hsize hop hflags hres ha_raw hb_raw
    (loadArgument_resolved ha) (loadArgument_resolved hb)]
  rcases hdiv with h | h <;> subst h <;> rfl

/-- Witness for C2: Div of cell 5 by cell 6, which holds 0. -/
theorem division_by_zero_halts_unchanged_witness :
    ([4, 3, 4, 5, 6, 10, 0, 0, 0, 0] : List Nat)[0]? = some 4
    ∧ executeInstruction [4, 3, 4, 5, 6, 10, 0, 0, 0, 0] 0
        ≠ some ⟨[4, 3, 4, 5, 6, 10, 0, 0, 0, 0], 0, some Message.instructionIsNotComplete⟩
    ∧ ([4, 3, 4, 5, 6, 10, 0, 0, 0, 0] : List Nat)[5]? = some 10
    ∧ ([4, 3, 4, 5, 6, 10, 0, 0, 0, 0] : List Nat)[6]? = some 0
    ∧ executeInstruction [4, 3, 4, 5, 6, 10, 0, 0, 0, 0] 0
        = some ⟨[4, 3, 4, 5, 6, 10, 0, 0, 0, 0], 0, some Message.divisionByZero⟩ :=
  ⟨by decide, by decide, by decide, by decide,
    division_by_zero_halts_unchanged [4, 3, 4, 5, 6, 10, 0, 0, 0, 0] 0 4 3 4 5 6 10
      (by decide) (by decide) (by decide) (by decide) (by decide) (by decide) (by decide)
      (by decide) (by decide)⟩

/-! ## Operand resolution -/

/-- C4. In an arithmetic (1 to 5) or conditional (6 to 11) instruction that is not
reported as incomplete, operand `a` is resolved first and operand `b` after it.
An operand whose flag bit is set and whose raw value is not below the memory
length stops the step with "Access violation on read" carrying that raw value.
Otherwise the operand is the raw value when the bit is clear and the cell it
indexes when the bit is set, and the step is the operation or comparison of the
two resolved values.  An IndirectGoto (13) operand and an Allocate (14)
`variable_index` that are not below the length stop the step with the same line
carrying that index. -/
theorem operands_resolve_or_report_read_violation (memory : List Nat) (ip op_code : Nat)
    (hop : memory[ip]? = some op_code)
    (hcomplete : executeInstruction memory ip
      ≠ some ⟨memory, ip, some Message.instructionIsNotComplete⟩) :
    (1 ≤ op_code ∧ op_code ≤ 5 → ∀ flags result_index a_raw b_raw : Nat,
      memory[ip + 1]? = some flags → memory[ip + 2]? = some result_index →
      memory[ip + 3]? = some a_raw → memory[ip + 4]? = some b_raw →
      (flags &&& 1 ≠ 0 → memory.length ≤ a_raw →
        executeInstruction memory ip
          = some ⟨memory, ip, some (Message.accessViolationOnRead a_raw)⟩)
      ∧ ∀ a : Nat, (if flags &&& 1 = 0 then a = a_raw else memory[a_raw]? = some a) →
        (flags &&& 2 ≠ 0 → memory.length ≤ b_raw →
          executeInstruction memory ip
            = some ⟨memory, ip, some (Message.accessViolationOnRead b_raw)⟩)
        ∧ ∀ b : Nat, (if flags &&& 2 = 0 then b = b_raw else memory[b_raw]? = some b) →
          executeInstruction memory ip =
            match binaryOperation op_code a b with
            | Except.error line => some ⟨memory, ip, some line⟩
            | Except.ok result =>
              if memory.length ≤ result_index then
                some ⟨memory, ip, some (Message.accessViolationOnWrite a)⟩
              else
                some ⟨memory.set result_index result, ip + 10, none⟩)
    ∧ (6 ≤ op_code ∧ op_code ≤ 11 → ∀ flags a_raw b_raw new_address : Nat,
      memory[ip + 1]? = some flags → memory[ip + 2]? = some a_raw →
      memory[ip + 3]? = some b_raw → memory[ip + 4]? = some new_address →
      (flags &&& 1 ≠ 0 → memory.length ≤ a_raw →
        executeInstruction memory ip
          = some ⟨memory, ip, some (Message.accessViolationOnRead a_raw)⟩)
      ∧ ∀ a : Nat, (if flags &&& 1 = 0 then a = a_raw else memory[a_raw]? = some a) →
        (flags &&& 2 ≠ 0 → memory.length ≤ b_raw →
          executeInstruction memory ip
            = some ⟨memory, ip, some (Message.accessViolationOnRead b_raw)⟩)
        ∧ ∀ b : Nat, (if flags &&& 2 = 0 then b = b_raw else memory[b_raw]? = some b) →
          executeInstruction memory ip =
            match comparison op_code a b with
            | Except.error line => some ⟨memory, ip, some line⟩
            | Except.ok result =>
              if result then some ⟨memory, new_address, none⟩
              else some ⟨memory, ip + 10, none⟩)
    ∧ (op_code = 13 → ∀ index : Nat, memory[ip + 1]? = some index →
      memory.length ≤ index →
      executeInstruction memory ip
        = some ⟨memory, ip, some (Message.accessViolationOnRead index)⟩)
    ∧ (op_code = 14 → ∀ variable_index : Nat, memory[ip + 1]? = some variable_index →
      memory.length ≤ variable_index →
      executeInstruction memory ip
        = some ⟨memory, ip, some (Message.accessViolationOnRead variable_index)⟩) := by
  refine ⟨?_, ?_, ?_, ?_⟩
  · intro hrange flags result_index a_raw b_raw hflags hres ha_raw hb_raw
    rw [executeInstruction_binary hop hrange] at hcomplete ⊢
    have hsize : ip + 10 ≤ memory.length := by
      by_contra hshort
      exact hcomplete (executeBinaryOperationAndAssignment_short (Nat.lt_of_not_le hshort))
    refine ⟨fun hbit hout => ?_, fun a ha => ⟨fun hbit hout => ?_, fun b hb => ?_⟩⟩
    · exact executeBinaryOperationAndAssignment_violation_a hsize hop hflags hres ha_raw
        hb_raw (loadArgument_violation hbit hout)
    · exact executeBinaryOperationAndAssignment_violation_b hsize hop hflags hres ha_raw
        hb_raw (loadArgument_resolved ha) (loadArgument_violation hbit hout)
    · exact executeBinaryOperationAndAssignment_loaded hsize hop hflags hres ha_raw hb_raw
        (loadArgument_resolved ha) (loadArgument_resolved hb)
  · intro hrange flags a_raw b_raw new_address hflags ha_raw hb_raw hnew
    rw [executeInstruction_if hop hrange] at hcomplete ⊢
    have hsize : ip + 10 ≤ memory.length := by
      by_contra hshort
      exact hcomplete (executeIf_short (Nat.lt_of_not_le hshort))
    refine ⟨fun hbit hout => ?_, fun a ha => ⟨fun hbit hout => ?_, fun b hb => ?_⟩⟩
    · exact executeIf_violation_a hsize hop hflags ha_raw hb_raw hnew
        (loadArgument_violation hbit hout)
    · exact executeIf_violation_b hsize hop hflags ha_raw hb_raw hnew
        (loadArgument_resolved ha) (loadArgument_violation hbit hout)
    · exact executeIf_loaded hsize hop hflags ha_raw hb_raw hnew
        (loadArgument_resolved ha) (loadArgument_resolved hb)
  · intro h13 index hindex hout
    subst h13
    rw [executeInstruction_goto hop (Or.inr rfl)] at hcomplete ⊢
    have hsize : ip + 4 ≤ memory.length := by
      by_contra hshort
      exact hcomplete (executeGoto_short (Nat.lt_of_not_le hshort))
    exact executeGoto_violation hsize hop hindex hout
  · intro h14 variable_index hindex hout
    subst h14
    rw [executeInstruction_allocate hop] at hcomplete ⊢
    have hsize : ip + 4 ≤ memory.length := by
      by_contra hshort
      exact hcomplete (executeAllocate_short (Nat.lt_of_not_le hshort))
    exact executeAllocate_violation hsize hindex hout

/-- Witness for C4: a Sub whose operand `a` is immediate and whose operand `b`
indexes cell 99 of a 10-cell memory. -/
theorem operands_resolve_or_report_read_violation_witness :
    ([2, 2, 9, 7, 99, 0, 0, 0, 0, 0] : List Nat)[0]? = some 2
    ∧ executeInstruction [2, 2, 9, 7, 99, 0, 0, 0, 0, 0] 0
        ≠ some ⟨[2, 2, 9, 7, 99, 0, 0, 0, 0, 0], 0, some Message.instructionIsNotComplete⟩
    ∧ executeInstruction [2, 2, 9, 7, 99, 0, 0, 0, 0, 0] 0
        = some ⟨[2, 2, 9, 7, 99, 0, 0, 0, 0, 0], 0, some (Message.accessViolationOnRead 99)⟩ :=
  ⟨by decide, by decide,
    ((((operands_resolve_or_report_read_violation [2, 2, 9, 7, 99, 0, 0, 0, 0, 0] 0 2
      (by decide) (by decide)).1 (by decide) 2 9 7 99 (by decide) (by decide) (by decide)
      (by decide)).2 7 (by decide)).1 (by decide) (by decide))⟩

/-! ## Stopping leaves the state alone -/

/-- C3. A step that stops, with any of the fault lines (or with "Program
completed successfully"), returns the memory it was given, cell for cell and
of the same length, and the `ip` it was given. -/
theorem fault_leaves_memory_and_ip (memory : List Nat) (ip : Nat) (r : StepResult)
    (hstep : executeInstruction memory ip = some r) (hhalt : r.halt ≠ none) :
    r.memory = memory ∧ r.memory.length = memory.length ∧ r.ip = ip := by
  have key : r.memory = memory ∧ r.ip = ip := by
    rcases executeInstruction_cases memory ip with ⟨_, hexec⟩ | ⟨op_code, _, hcases⟩
    · rw [hexec] at hstep
      rw [← Option.some.inj hstep]
      exact ⟨rfl, rfl⟩
    · rcases hcases with ⟨_, hexec⟩ | ⟨_, _, hexec⟩ | ⟨_, _, hexec⟩ | ⟨_, hexec⟩ | ⟨_, hexec⟩
        | ⟨_, hexec⟩ | ⟨_, hexec⟩
      · rw [hexec] at hstep
        unfold executeNop at hstep
        rw [← Option.some.inj hstep] at hhalt
        exact absurd rfl hhalt
      · rw [hexec] at hstep
        exact executeBinaryOperationAndAssignment_halt hstep hhalt
      · rw [hexec] at hstep
        exact executeIf_halt hstep hhalt
      · rw [hexec] at hstep
        exact executeGoto_halt hstep hhalt
      · rw [hexec] at hstep
        exact executeAllocate_halt hstep hhalt
      · rw [hexec] at hstep
        rw [← Option.some.inj hstep]
        exact ⟨rfl, rfl⟩
      · rw [hexec] at hstep
        rw [← Option.some.inj hstep]
        exact ⟨rfl, rfl⟩
  exact ⟨key.1, by rw [key.1], key.2⟩

/-- Witness for C3: an Add whose `result_index` 20 is outside a 10-cell memory. -/
theorem fault_leaves_memory_and_ip_witness :
    executeInstruction [1, 0, 20, 3, 4, 0, 0, 0, 0, 0] 0
        = some ⟨[1, 0, 20, 3, 4, 0, 0, 0, 0, 0], 0, some (Message.accessViolationOnWrite 3)⟩
    ∧ (some (Message.accessViolationOnWrite 3) : Option Message) ≠ none
    ∧ ([1, 0, 20, 3, 4, 0, 0, 0, 0, 0] : List Nat) = [1, 0, 20, 3, 4, 0, 0, 0, 0, 0]
    ∧ ([1, 0, 20, 3, 4, 0, 0, 0, 0, 0] : List Nat).length
        = ([1, 0, 20, 3, 4, 0, 0, 0, 0, 0] : List Nat).length
    ∧ 0 = 0 :=
  ⟨by decide, by decide,
    fault_leaves_memory_and_ip [1, 0, 20, 3, 4, 0, 0, 0, 0, 0] 0
      ⟨[1, 0, 20, 3, 4, 0, 0, 0, 0, 0], 0, some (Message.accessViolationOnWrite 3)⟩
      (by decide) (by decide)⟩

/-! ## Address printed on a write violation -/

/-- C5. On the 10-cell memory `[Add, 0, 20, 3, 4, 0, 0, 0, 0, 0]` the Add has
`result_index` 20, outside the memory; the step stops with "Access violation on
write" and the memory is unchanged, but the address printed is 3, the value of
operand `a` (line 140 prints `argument_a`), not 20. -/
theorem write_violation_prints_operand_a :
    executeInstruction [1, 0, 20, 3, 4, 0, 0, 0, 0, 0] 0
        = some ⟨[1, 0, 20, 3, 4, 0, 0, 0, 0, 0], 0, some (Message.accessViolationOnWrite 3)⟩
    ∧ executeInstruction [1, 0, 20, 3, 4, 0, 0, 0, 0, 0] 0
        ≠ some ⟨[1, 0, 20, 3, 4, 0, 0, 0, 0, 0], 0, some (Message.accessViolationOnWrite 20)⟩ := by
  decide

/-! ## Instruction widths -/

/-- C6. The size checks compare cell counts with `sizeof`, a byte count: an
arithmetic instruction at `ip` 0 of the 6-cell memory of Scenario A and of the
8-cell memory of Scenario B is reported as incomplete, and so are a Goto and an
Allocate followed by fewer than three more cells. -/
theorem five_cell_instruction_reported_incomplete :
    executeInstruction [1, 0, 5, 3, 4, 0] 0
        = some ⟨[1, 0, 5, 3, 4, 0], 0, some Message.instructionIsNotComplete⟩
    ∧ executeInstruction [4, 3, 4, 5, 6, 0, 10, 0] 0
        = some ⟨[4, 3, 4, 5, 6, 0, 10, 0], 0, some Message.instructionIsNotComplete⟩
    ∧ executeInstruction [12, 0] 0 = some ⟨[12, 0], 0, some Message.instructionIsNotComplete⟩
    ∧ executeInstruction [14, 1, 3] 0
        = some ⟨[14, 1, 3], 0, some Message.instructionIsNotComplete⟩ := by
  decide

/-- C7. On the 6-cell memory of Scenario A the step stops with "Instruction is not
complete", leaving cell 5 at 0 and `ip` at 0.  On a 10-cell memory the same Add
stores 7 in cell 5 and continues with `ip` 10, not 5; a conditional branch whose
comparison is false (5 < 3) also continues with `ip` 10. -/
theorem arithmetic_and_false_branch_advance_by_ten :
    executeInstruction [1, 0, 5, 3, 4, 0] 0
        = some ⟨[1, 0, 5, 3, 4, 0], 0, some Message.instructionIsNotComplete⟩
    ∧ executeInstruction [1, 0, 5, 3, 4, 0, 0, 0, 0, 0] 0
        = some ⟨[1, 0, 5, 3, 4, 7, 0, 0, 0, 0], 10, none⟩
    ∧ executeInstruction [6, 0, 5, 3, 0, 0, 0, 0, 0, 0] 0
        = some ⟨[6, 0, 5, 3, 0, 0, 0, 0, 0, 0], 10, none⟩ := by
  decide

/-! ## Branches and jumps -/

/-- C8. In a conditional branch (opcodes 6 to 11) that is not reported as
incomplete and whose operands resolve to `a` and `b`, the comparison is the one
of the opcode on the two values (6: `a < b`, 7: `a ≤ b`, 8: `a = b`, 9: `a ≠ b`,
10: `a > b`, 11: `a ≥ b`).  When it holds the step continues with `ip` equal to
the `new_address` cell, whatever its value, and the memory is unchanged; when it
does not hold the step continues past the instruction instead, `ip` growing by
`sizeof(BinaryOperationAndAssignmentInstruction)`. -/
theorem true_branch_jumps_to_raw_new_address (memory : List Nat)
    (ip op_code flags a_raw b_raw new_address a b : Nat)
    (hop : memory[ip]? = some op_code) (hrange : 6 ≤ op_code ∧ op_code ≤ 11)
    (hcomplete : executeInstruction memory ip
      ≠ some ⟨memory, ip, some Message.instructionIsNotComplete⟩)
    (hflags : memory[ip + 1]? = some flags) (ha_raw : memory[ip + 2]? = some a_raw)
    (hb_raw : memory[ip + 3]? = some b_raw) (hnew : memory[ip + 4]? = some new_address)
    (ha : if flags &&& 1 = 0 then a = a_raw else memory[a_raw]? = some a)
    (hb : if flags &&& 2 = 0 then b = b_raw else memory[b_raw]? = some b) :
    (((op_code = 6 ∧ a < b) ∨ (op_code = 7 ∧ a ≤ b) ∨ (op_code = 8 ∧ a = b)
        ∨ (op_code = 9 ∧ a ≠ b) ∨ (op_code = 10 ∧ a > b) ∨ (op_code = 11 ∧ a ≥ b)) →
      executeInstruction memory ip = some ⟨memory, new_address, none⟩)
    ∧ (¬ ((op_code = 6 ∧ a < b) ∨ (op_code = 7 ∧ a ≤ b) ∨ (op_code = 8 ∧ a = b)
        ∨ (op_code = 9 ∧ a ≠ b) ∨ (op_code = 10 ∧ a > b) ∨ (op_code = 11 ∧ a ≥ b)) →
      executeInstruction memory ip
        = some ⟨memory, ip + sizeofBinaryOperationAndAssignmentInstruction, none⟩) := by
  rw [executeInstruction_if hop hrange] at hcomplete ⊢
  have hsize : ip + 10 ≤ memory.length := by
    by_contra hshort
    exact hcomplete (executeIf_short (Nat.lt_of_not_le hshort))
  rw [executeIf_loaded hsize hop hflags ha_raw hb_raw hnew (loadArgument_resolved ha)
    (loadArgument_resolved hb)]
  obtain ⟨result, hresult, hiff⟩ := comparison_ok a b hrange
  rw [hresult]
  constructor
  · intro htrue
    rw [hiff.mpr htrue]
    rfl
  · intro hfalse
    have hres : result = false := by
      cases result
      · rfl
      · exact absurd (hiff.mp rfl) hfalse
    rw [hres]
    rfl

/-- Witness for C8: IfALessB on cells 8 and 9 (3 < 9) jumps to 60000, far
outside the 10-cell memory. -/
theorem true_branch_jumps_to_raw_new_address_witness :
    ([6, 3, 8, 9, 60000, 0, 0, 0, 3, 9] : List Nat)[0]? = some 6
    ∧ executeInstruction [6, 3, 8, 9, 60000, 0, 0, 0, 3, 9] 0
        ≠ some ⟨[6, 3, 8, 9, 60000, 0, 0, 0, 3, 9], 0, some Message.instructionIsNotComplete⟩
    ∧ ([6, 3, 8, 9, 60000, 0, 0, 0, 3, 9] : List Nat)[8]? = some 3
    ∧ ([6, 3, 8, 9, 60000, 0, 0, 0, 3, 9] : List Nat)[9]? = some 9
    ∧ executeInstruction [6, 3, 8, 9, 60000, 0, 0, 0, 3, 9] 0
        = some ⟨[6, 3, 8, 9, 60000, 0, 0, 0, 3, 9], 60000, none⟩ :=
  ⟨by decide, by decide, by decide, by decide,
    (true_branch_jumps_to_raw_new_address [6, 3, 8, 9, 60000, 0, 0, 0, 3, 9] 0 6 3 8 9 60000 3 9
      (by decide) (by decide) (by decide) (by decide) (by decide) (by decide) (by decide)
      (by decide) (by decide)).1 (Or.inl ⟨rfl, by decide⟩)⟩

/-- C9. In a jump that is not reported as incomplete, Goto (12) continues with
`ip` equal to its operand cell, whatever its value; IndirectGoto (13) continues
with `ip` equal to the cell that the operand indexes when the operand is below
the memory length, and stops with "Access violation on read" carrying the
operand otherwise.  The memory is unchanged in each case. -/
theorem jumps_take_unchecked_target (memory : List Nat) (ip op_code target : Nat)
    (hop : memory[ip]? = some op_code)
    (hcomplete : executeInstruction memory ip
      ≠ some ⟨memory, ip, some Message.instructionIsNotComplete⟩)
    (htarget : memory[ip + 1]? = some target) :
    (op_code = 12 → executeInstruction memory ip = some ⟨memory, target, none⟩)
    ∧ (op_code = 13 →
        (∀ h : target < memory.length,
          executeInstruction memory ip = some ⟨memory, memory[target], none⟩)
        ∧ (memory.length ≤ target →
          executeInstruction memory ip
            = some ⟨memory, ip, some (Message.accessViolationOnRead target)⟩)) := by
  constructor
  · intro h12
    subst h12
    rw [executeInstruction_goto hop (Or.inl rfl)] at hcomplete ⊢
    have hsize : ip + 4 ≤ memory.length := by
      by_contra hshort
      exact hcomplete (executeGoto_short (Nat.lt_of_not_le hshort))
    exact executeGoto_direct hsize hop htarget
  · intro h13
    subst h13
    rw [executeInstruction_goto hop (Or.inr rfl)] at hcomplete ⊢
    have hsize : ip + 4 ≤ memory.length := by
      by_contra hshort
      exact hcomplete (executeGoto_short (Nat.lt_of_not_le hshort))
    exact ⟨fun h => executeGoto_indirect hsize hop htarget (List.getElem?_eq_getElem h),
      fun hout => executeGoto_violation hsize hop htarget hout⟩

/-- Witness for C9: a Goto to 50000 on a 4-cell memory. -/
theorem jumps_take_unchecked_target_witness :
    ([12, 50000, 0, 0] : List Nat)[0]? = some 12
    ∧ executeInstruction [12, 50000, 0, 0] 0
        ≠ some ⟨[12, 50000, 0, 0], 0, some Message.instructionIsNotComplete⟩
    ∧ ([12, 50000, 0, 0] : List Nat)[0 + 1]? = some 50000
    ∧ executeInstruction [12, 50000, 0, 0] 0 = some ⟨[12, 50000, 0, 0], 50000, none⟩ :=
  ⟨by decide, by decide, by decide,
    (jumps_take_unchecked_target [12, 50000, 0, 0] 0 12 50000 (by decide) (by decide)
      (by decide)).1 rfl⟩

/-! ## Allocate -/

/-- C10. A step on Allocate (14) that does not stop returns the old memory
followed by exactly `amount` zero cells, where `amount` is the cell that
`variable_index` indexes in the old memory: the length grows by `amount`, every
old cell keeps its value and every new cell is 0. -/
theorem allocate_appends_zero_cells (memory : List Nat) (ip : Nat) (r : StepResult)
    (hop : memory[ip]? = some 14)
    (hstep : executeInstruction memory ip = some r) (hok : r.halt = none) :
    ∃ variable_index amount : Nat,
      memory[ip + 1]? = some variable_index ∧ memory[variable_index]? = some amount
      ∧ r.memory = memory ++ List.replicate amount 0
      ∧ r.memory.length = memory.length + amount
      ∧ (∀ i, i < memory.length → r.memory[i]? = memory[i]?)
      ∧ (∀ i, memory.length ≤ i → i < memory.length + amount → r.memory[i]? = some 0) := by
  rw [executeInstruction_allocate hop] at hstep
  by_cases hsize : ip + 4 ≤ memory.length
  · obtain ⟨variable_index, hindex⟩ : ∃ v : Nat, memory[ip + 1]? = some v :=
      ⟨_, List.getElem?_eq_getElem (by omega)⟩
    by_cases hout : memory.length ≤ variable_index
    · rw [executeAllocate_violation hsize hindex hout] at hstep
      rw [← Option.some.inj hstep] at hok
      exact Option.noConfusion hok
    · obtain ⟨amount, hamount⟩ : ∃ v : Nat, memory[variable_index]? = some v :=
        ⟨_, List.getElem?_eq_getElem (Nat.lt_of_not_le hout)⟩
      rw [executeAllocate_read hsize hindex hamount] at hstep
      by_cases hcap : 4294967295 ≤ amount + memory.length
      · rw [if_pos hcap] at hstep
        rw [← Option.some.inj hstep] at hok
        exact Option.noConfusion hok
      · rw [if_neg hcap] at hstep
        have hr := Option.some.inj hstep
        refine ⟨variable_index, amount, hindex, hamount, ?_, ?_, ?_, ?_⟩
        · rw [← hr]
        · rw [← hr]
          simp
        · intro i hi
          rw [← hr]
          exact List.getElem?_append_left hi
        · intro i hlow hhigh
          rw [← hr]
          show (memory ++ List.replicate amount 0)[i]? = some 0
          rw [List.getElem?_append_right hlow, List.getElem?_replicate]
          rw [if_pos (by omega)]
  · rw [executeAllocate_short (Nat.lt_of_not_le hsize)] at hstep
    rw [← Option.some.inj hstep] at hok
    exact Option.noConfusion hok

/-- Witness for C10: Allocate of the amount 1 held in cell 1 of a 4-cell memory. -/
theorem allocate_appends_zero_cells_witness :
    ([14, 1, 0, 0] : List Nat)[0]? = some 14
    ∧ executeInstruction [14, 1, 0, 0] 0 = some ⟨[14, 1, 0, 0, 0], 10, none⟩
    ∧ ∃ variable_index amount : Nat,
      ([14, 1, 0, 0] : List Nat)[0 + 1]? = some variable_index
      ∧ ([14, 1, 0, 0] : List Nat)[variable_index]? = some amount
      ∧ [14, 1, 0, 0, 0] = [14, 1, 0, 0] ++ List.replicate amount 0
      ∧ ([14, 1, 0, 0, 0] : List Nat).length = ([14, 1, 0, 0] : List Nat).length + amount
      ∧ (∀ i, i < ([14, 1, 0, 0] : List Nat).length →
          ([14, 1, 0, 0, 0] : List Nat)[i]? = ([14, 1, 0, 0] : List Nat)[i]?)
      ∧ (∀ i, ([14, 1, 0, 0] : List Nat).length ≤ i →
          i < ([14, 1, 0, 0] : List Nat).length + amount →
          ([14, 1, 0, 0, 0] : List Nat)[i]? = some 0) :=
  ⟨by decide, by decide,
    allocate_appends_zero_cells [14, 1, 0, 0] 0 ⟨[14, 1, 0, 0, 0], 10, none⟩
      (by decide) (by decide) rfl⟩

/-- An Allocate (14) that is not reported as incomplete, whose `variable_index`
is below the memory length and for which the length plus the amount held in
that cell is below `2 ^ 16`, does not stop: the step continues with the old
memory followed by `amount` zero cells, and with `ip` grown by 10. -/
theorem executeInstruction_allocate_below_ceiling {memory : List Nat}
    {ip variable_index amount : Nat} (hop : memory[ip]? = some 14)
    (hcomplete : executeInstruction memory ip
      ≠ some ⟨memory, ip, some Message.instructionIsNotComplete⟩)
    (hindex : memory[ip + 1]? = some variable_index)
    (hamount : memory[variable_index]? = some amount)
    (hceiling : memory.length + amount < 65536) :
    executeInstruction memory ip
      = some ⟨memory ++ List.replicate amount 0, ip + 10, none⟩ := by
  rw [executeInstruction_allocate hop] at hcomplete ⊢
  have hsize : ip + 4 ≤ memory.length := by
    by_contra hshort
    exact hcomplete (executeAllocate_short (Nat.lt_of_not_le hshort))
  rw [executeAllocate_read hsize hindex hamount]
  have hcap : ¬ 4294967295 ≤ amount + memory.length := by omega
  rw [if_neg hcap]

/-- C11. On the 3-cell memory `[Allocate, 1, 3]` of Scenario C, where `ip + 2` is
within the length, the step stops with "Instruction is not complete": the size
check on line 248 wants 4 cells, the byte size of `AllocateInstruction`.  On the
4-cell memory `[Allocate, 2, 3, 0]` the instruction is complete,
`variable_index` 2 is in range and 4 + 3 is below `2 ^ 16`; the step appends
three zero cells and continues, but with `ip` 10, the byte size of
`BinaryOperationAndAssignmentInstruction` added on line 263, not with `ip` 2. -/
theorem allocate_wants_four_cells_and_advances_by_ten :
    executeInstruction [14, 1, 3] 0
        = some ⟨[14, 1, 3], 0, some Message.instructionIsNotComplete⟩
    ∧ executeInstruction [14, 2, 3, 0] 0 = some ⟨[14, 2, 3, 0, 0, 0, 0], 10, none⟩
    ∧ executeInstruction [14, 2, 3, 0] 0 ≠ some ⟨[14, 2, 3, 0, 0, 0, 0], 2, none⟩ := by
  decide

/-- C12 (as stated, refuted). On the 4-cell memory `[Allocate, 2, 65535, 0]` the
requested amount is 65535, so the new length 65539 is past `2 ^ 16`; the step
does not stop with "Memory is exhausted" but continues with a memory of 65539
cells. -/
theorem allocate_past_two_pow_sixteen_continues :
    ([14, 2, 65535, 0] : List Nat).length + 65535 ≥ 65536
    ∧ executeInstruction [14, 2, 65535, 0] 0
        = some ⟨[14, 2, 65535, 0] ++ List.replicate 65535 0, 10, none⟩
    ∧ ([14, 2, 65535, 0] ++ List.replicate 65535 0 : List Nat).length = 65539 := by
  refine ⟨by decide, ?_, by rw [List.length_append, List.length_replicate]; rfl⟩
  rw [executeInstruction_allocate (by decide),
    @executeAllocate_read [14, 2, 65535, 0] 0 2 65535 (by decide) (by decide) (by decide)]
  rfl

/-- C12 (amended). For an Allocate (14) that is not reported as incomplete and
whose `variable_index` is below the memory length, the step stops with "Memory is
exhausted" exactly when the memory length plus the requested amount is at
least 4294967295, the largest `std::uint32_t`; so a step that continues leaves
fewer than 4294967295 cells. -/
theorem allocate_exhausted_iff_uint32_max (memory : List Nat)
    (ip variable_index amount : Nat)
    (hop : memory[ip]? = some 14)
    (hcomplete : executeInstruction memory ip
      ≠ some ⟨memory, ip, some Message.instructionIsNotComplete⟩)
    (hindex : memory[ip + 1]? = some variable_index)
    (hamount : memory[variable_index]? = some amount) :
    ((∃ (r : StepResult) (required : Nat), executeInstruction memory ip = some r
        ∧ r.halt = some (Message.memoryIsExhausted required))
      ↔ 4294967295 ≤ memory.length + amount)
    ∧ (4294967295 ≤ memory.length + amount →
        executeInstruction memory ip
          = some ⟨memory, ip, some (Message.memoryIsExhausted (amount + memory.length))⟩)
    ∧ (∀ r : StepResult, executeInstruction memory ip = some r → r.halt = none →
        r.memory.length < 4294967295) := by
  rw [executeInstruction_allocate hop] at hcomplete ⊢
  have hsize : ip + 4 ≤ memory.length := by
    by_contra hshort
    exact hcomplete (executeAllocate_short (Nat.lt_of_not_le hshort))
  rw [executeAllocate_read hsize hindex hamount]
  by_cases hcap : 4294967295 ≤ amount + memory.length
  · rw [if_pos hcap]
    refine ⟨⟨fun _ => by omega, fun _ => ⟨_, _, rfl, rfl⟩⟩, fun _ => rfl, ?_⟩
    intro r hr hok
    rw [← Option.some.inj hr] at hok
    exact Option.noConfusion hok
  · rw [if_neg hcap]
    refine ⟨⟨?_, fun h => absurd (by omega) hcap⟩, fun h => absurd (by omega) hcap, ?_⟩
    · rintro ⟨r, required, hr, hhalt⟩
      rw [← Option.some.inj hr] at hhalt
      exact Option.noConfusion hhalt
    · intro r hr _
      rw [← Option.some.inj hr]
      simp only [List.length_append, List.length_replicate]
      omega

/-- Witness for C12 (amended): the amount 65535 held in cell 2 of a 4-cell memory. -/
theorem allocate_exhausted_iff_uint32_max_witness :
    ([14, 2, 65535, 0] : List Nat)[0]? = some 14
    ∧ executeInstruction [14, 2, 65535, 0] 0
        ≠ some ⟨[14, 2, 65535, 0], 0, some Message.instructionIsNotComplete⟩
    ∧ ([14, 2, 65535, 0] : List Nat)[0 + 1]? = some 2
    ∧ ([14, 2, 65535, 0] : List Nat)[2]? = some 65535
    ∧ ((∃ (r : StepResult) (required : Nat), executeInstruction [14, 2, 65535, 0] 0 = some r
        ∧ r.halt = some (Message.memoryIsExhausted required))
      ↔ 4294967295 ≤ ([14, 2, 65535, 0] : List Nat).length + 65535) :=
  have hcomplete : executeInstruction [14, 2, 65535, 0] 0
      ≠ some ⟨[14, 2, 65535, 0], 0, some Message.instructionIsNotComplete⟩ := by
    rw [executeInstruction_allocate (by decide),
      @executeAllocate_read [14, 2, 65535, 0] 0 2 65535 (by decide) (by decide) (by decide),
      if_neg (by decide)]
    intro h
    have hhalt : (none : Option Message) = some Message.instructionIsNotComplete :=
      congrArg StepResult.halt (Option.some.inj h)
    exact Option.noConfusion hhalt
  ⟨by decide, hcomplete, by decide, by decide,
    (allocate_exhausted_iff_uint32_max [14, 2, 65535, 0] 0 2 65535 (by decide) hcomplete
      (by decide) (by decide)).1⟩

/-! ## Length of the memory across a step -/

theorem executeBinaryOperationAndAssignment_length {memory : List Nat} {ip : Nat}
    {r : StepResult} (h : executeBinaryOperationAndAssignment memory ip = some r) :
    r.memory.length = memory.length := by
  by_cases hhalt : r.halt = none
  · by_cases hsize : ip + 10 ≤ memory.length
    · obtain ⟨op_code, flags, result_index, a_raw, b_raw, _, _, _, _, _, hcases⟩ :=
        executeBinaryOperationAndAssignment_cases hsize
      rcases hcases with ⟨_, _, hexec⟩ | ⟨a, _, ⟨_, _, hexec⟩ | ⟨b, _, hexec⟩⟩
      · rw [hexec] at h
        rw [← Option.some.inj h]
      · rw [hexec] at h
        rw [← Option.some.inj h]
      · rw [hexec] at h
        rcases hbin : binaryOperation op_code a b with line | value
        · rw [hbin] at h
          rw [← Option.some.inj h]
        · rw [hbin] at h
          by_cases hri : memory.length ≤ result_index
          · simp only [hri, if_true] at h
            rw [← Option.some.inj h]
          · simp only [hri, if_false] at h
            rw [← Option.some.inj h]
            exact List.length_set _ _ _
    · rw [executeBinaryOperationAndAssignment_short (Nat.lt_of_not_le hsize)] at h
      rw [← Option.some.inj h]
  · rw [(executeBinaryOperationAndAssignment_halt h hhalt).1]

theorem executeIf_memory {memory : List Nat} {ip : Nat} {r : StepResult}
    (h : executeIf memory ip = some r) : r.memory = memory := by
  by_cases hsize : ip + 10 ≤ memory.length
  · obtain ⟨op_code, flags, a_raw, b_raw, new_address, _, _, _, _, _, hcases⟩ :=
      executeIf_cases hsize
    rcases hcases with ⟨_, _, hexec⟩ | ⟨a, _, ⟨_, _, hexec⟩ | ⟨b, _, hexec⟩⟩
    · rw [hexec] at h
      rw [← Option.some.inj h]
    · rw [hexec] at h
      rw [← Option.some.inj h]
    · rw [hexec] at h
      rcases hcmp : comparison op_code a b with line | result
      · rw [hcmp] at h
        rw [← Option.some.inj h]
      · rw [hcmp] at h
        cases result
        · simp only [Bool.false_eq_true, if_false] at h
          rw [← Option.some.inj h]
        · simp only [if_true] at h
          rw [← Option.some.inj h]
  · rw [executeIf_short (Nat.lt_of_not_le hsize)] at h
    rw [← Option.some.inj h]

theorem executeGoto_memory {memory : List Nat} {ip : Nat} {r : StepResult}
    (h : executeGoto memory ip = some r) : r.memory = memory := by
  unfold executeGoto at h
  split at h
  · split at h
    · split at h
      · rw [← Option.some.inj h]
      · split at h
        · rw [← Option.some.inj h]
        · split at h
          · exact Option.noConfusion h
          · rw [← Option.some.inj h]
      · rw [← Option.some.inj h]
    · exact Option.noConfusion h
  · rw [← Option.some.inj h]

theorem executeAllocate_length {memory : List Nat} {ip : Nat} {r : StepResult}
    (h : executeAllocate memory ip = some r) : memory.length ≤ r.memory.length := by
  by_cases hhalt : r.halt = none
  · by_cases hsize : ip + 4 ≤ memory.length
    · obtain ⟨variable_index, hindex⟩ : ∃ v : Nat, memory[ip + 1]? = some v :=
        ⟨_, List.getElem?_eq_getElem (by omega)⟩
      by_cases hout : memory.length ≤ variable_index
      · rw [executeAllocate_violation hsize hindex hout] at h
        rw [← Option.some.inj h]
      · obtain ⟨amount, hamount⟩ : ∃ v : Nat, memory[variable_index]? = some v :=
          ⟨_, List.getElem?_eq_getElem (Nat.lt_of_not_le hout)⟩
        rw [executeAllocate_read hsize hindex hamount] at h
        by_cases hcap : 4294967295 ≤ amount + memory.length
        · rw [if_pos hcap] at h
          rw [← Option.some.inj h]
        · rw [if_neg hcap] at h
          rw [← Option.some.inj h]
          simp only [List.length_append, List.length_replicate]
          omega
    · rw [executeAllocate_short (Nat.lt_of_not_le hsize)] at h
      rw [← Option.some.inj h]
  · rw [(executeAllocate_halt h hhalt).1]

/-- One step never shortens the memory, and lengthens it only in a continuing
Allocate. -/
theorem executeInstruction_length {memory : List Nat} {ip : Nat} {r : StepResult}
    (hstep : executeInstruction memory ip = some r) :
    memory.length ≤ r.memory.length
      ∧ (memory.length < r.memory.length → memory[ip]? = some 14 ∧ r.halt = none) := by
  rcases executeInstruction_cases memory ip with ⟨_, hexec⟩ | ⟨op_code, hop, hcases⟩
  · rw [hexec] at hstep
    rw [← Option.some.inj hstep]
    exact ⟨Nat.le_refl _, fun h => absurd h (Nat.lt_irrefl _)⟩
  · rcases hcases with ⟨_, hexec⟩ | ⟨_, _, hexec⟩ | ⟨_, _, hexec⟩ | ⟨_, hexec⟩ | ⟨h14, hexec⟩
      | ⟨_, hexec⟩ | ⟨_, hexec⟩
    · rw [hexec] at hstep
      unfold executeNop at hstep
      rw [← Option.some.inj hstep]
      exact ⟨Nat.le_refl _, fun h => absurd h (Nat.lt_irrefl _)⟩
    · rw [hexec] at hstep
      have hlen := executeBinaryOperationAndAssignment_length hstep
      exact ⟨by omega, fun h => by omega⟩
    · rw [hexec] at hstep
      rw [executeIf_memory hstep]
      exact ⟨Nat.le_refl _, fun h => absurd h (Nat.lt_irrefl _)⟩
    · rw [hexec] at hstep
      rw [executeGoto_memory hstep]
      exact ⟨Nat.le_refl _, fun h => absurd h (Nat.lt_irrefl _)⟩
    · rw [hexec] at hstep
      refine ⟨executeAllocate_length hstep, fun hgrow => ⟨by rw [hop, h14], ?_⟩⟩
      by_contra hhalt
      rw [(executeAllocate_halt hstep hhalt).1] at hgrow
      exact Nat.lt_irrefl _ hgrow
    · rw [hexec] at hstep
      rw [← Option.some.inj hstep]
      exact ⟨Nat.le_refl _, fun h => absurd h (Nat.lt_irrefl _)⟩
    · rw [hexec] at hstep
      rw [← Option.some.inj hstep]
      exact ⟨Nat.le_refl _, fun h => absurd h (Nat.lt_irrefl _)⟩

/-- C13. The memory after one step, stopping or not, is at least as long as
before, and when it is longer the cell at `ip` was Allocate (14) and the step
did not stop.  Hence along any chain of steps, each one starting from the
memory and `ip` the one before it returned, the length never decreases. -/
theorem memory_length_is_monotone :
    (∀ (memory : List Nat) (ip : Nat) (r : StepResult),
      executeInstruction memory ip = some r →
        memory.length ≤ r.memory.length
        ∧ (memory.length < r.memory.length → memory[ip]? = some 14 ∧ r.halt = none))
    ∧ (∀ (count : Nat) (memories : Nat → List Nat) (ips : Nat → Nat),
      (∀ n, n < count → ∃ r : StepResult,
        executeInstruction (memories n) (ips n) = some r
          ∧ memories (n + 1) = r.memory ∧ ips (n + 1) = r.ip) →
      ∀ m n, m ≤ n → n ≤ count → (memories m).length ≤ (memories n).length) := by
  refine ⟨fun memory ip r hstep => executeInstruction_length hstep, ?_⟩
  intro count memories ips hchain m n hmn
  induction n with
  | zero =>
    intro _
    have hm : m = 0 := Nat.le_zero.mp hmn
    rw [hm]
  | succ k ih =>
    intro hk
    by_cases hm : m = k + 1
    · rw [hm]
    · have hmk : m ≤ k := by omega
      obtain ⟨r, hstep, hmem, _⟩ := hchain k (by omega)
      have hle := (executeInstruction_length hstep).1
      rw [← hmem] at hle
      exact Nat.le_trans (ih hmk (by omega)) hle

/-- Witness for C13: an Allocate that lengthens a 4-cell memory by one cell. -/
theorem memory_length_is_monotone_witness :
    executeInstruction [14, 1, 0, 0] 0 = some ⟨[14, 1, 0, 0, 0], 10, none⟩
    ∧ ([14, 1, 0, 0] : List Nat).length ≤ ([14, 1, 0, 0, 0] : List Nat).length
    ∧ (([14, 1, 0, 0] : List Nat).length < ([14, 1, 0, 0, 0] : List Nat).length →
        ([14, 1, 0, 0] : List Nat)[0]? = some 14 ∧ (none : Option Message) = none) :=
  ⟨by decide,
    memory_length_is_monotone.1 [14, 1, 0, 0] 0 ⟨[14, 1, 0, 0, 0], 10, none⟩ (by decide)⟩

/-! ## Decoding -/

theorem binaryOperation_error_of_valid {op_code a b : Nat} {line : Message}
    (hrange : 1 ≤ op_code ∧ op_code ≤ 5)
    (h : binaryOperation op_code a b = Except.error line) : line = Message.divisionByZero := by
  rcases binaryOperation_error h with hl | hl
  · exact hl
  · obtain ⟨h1, h5⟩ := hrange
    subst hl
    interval_cases op_code
    · exact Except.noConfusion h
    · exact Except.noConfusion h
    · exact Except.noConfusion h
    · unfold binaryOperation at h
      simp only at h
      split at h
      · exact Message.noConfusion (Except.error.inj h)
      · exact Except.noConfusion h
    · unfold binaryOperation at h
      simp only at h
      split at h
      · exact Message.noConfusion (Except.error.inj h)
      · exact Except.noConfusion h

theorem executeBinaryOperationAndAssignment_valid {memory : List Nat} {ip op_code : Nat}
    {r : StepResult} (hop : memory[ip]? = some op_code) (hrange : 1 ≤ op_code ∧ op_code ≤ 5)
    (h : executeBinaryOperationAndAssignment memory ip = some r) (x : Nat) :
    r.halt ≠ some (Message.invalidOpcode x) := by
  by_cases hsize : ip + 10 ≤ memory.length
  · obtain ⟨op1, flags, result_index, a_raw, b_raw, h0, _, _, _, _, hcases⟩ :=
      executeBinaryOperationAndAssignment_cases hsize
    have hop1 : op1 = op_code := Option.some.inj (h0.symm.trans hop)
    subst hop1
    rcases hcases with ⟨_, _, hexec⟩ | ⟨a, _, ⟨_, _, hexec⟩ | ⟨b, _, hexec⟩⟩
    · rw [hexec] at h
      rw [← Option.some.inj h]
      simp
    · rw [hexec] at h
      rw [← Option.some.inj h]
      simp
    · rw [hexec] at h
      rcases hbin : binaryOperation op1 a b with line | value
      · rw [hbin] at h
        rw [← Option.some.inj h, binaryOperation_error_of_valid hrange hbin]
        simp
      · rw [hbin] at h
        by_cases hri : memory.length ≤ result_index
        · simp only [hri, if_true] at h
          rw [← Option.some.inj h]
          simp
        · simp only [hri, if_false] at h
          rw [← Option.some.inj h]
          simp
  · rw [executeBinaryOperationAndAssignment_short (Nat.lt_of_not_le hsize)] at h
    rw [← Option.some.inj h]
    simp

theorem executeIf_valid {memory : List Nat} {ip op_code : Nat} {r : StepResult}
    (hop : memory[ip]? = some op_code) (hrange : 6 ≤ op_code ∧ op_code ≤ 11)
    (h : executeIf memory ip = some r) (x : Nat) :
    r.halt ≠ some (Message.invalidOpcode x) := by
  by_cases hsize : ip + 10 ≤ memory.length
  · obtain ⟨op1, flags, a_raw, b_raw, new_address, h0, _, _, _, _, hcases⟩ :=
      executeIf_cases hsize
    have hop1 : op1 = op_code := Option.some.inj (h0.symm.trans hop)
    subst hop1
    rcases hcases with ⟨_, _, hexec⟩ | ⟨a, _, ⟨_, _, hexec⟩ | ⟨b, _, hexec⟩⟩
    · rw [hexec] at h
      rw [← Option.some.inj h]
      simp
    · rw [hexec] at h
      rw [← Option.some.inj h]
      simp
    · rw [hexec] at h
      obtain ⟨result, hresult, _⟩ := comparison_ok a b hrange
      rw [hresult] at h
      cases result
      · simp only [Bool.false_eq_true, if_false] at h
        rw [← Option.some.inj h]
        simp
      · simp only [if_true] at h
        rw [← Option.some.inj h]
        simp
  · rw [executeIf_short (Nat.lt_of_not_le hsize)] at h
    rw [← Option.some.inj h]
    simp

theorem executeGoto_valid {memory : List Nat} {ip op_code : Nat} {r : StepResult}
    (hop : memory[ip]? = some op_code) (hrange : op_code = 12 ∨ op_code = 13)
    (h : executeGoto memory ip = some r) (x : Nat) :
    r.halt ≠ some (Message.invalidOpcode x) := by
  by_cases hsize : ip + 4 ≤ memory.length
  · obtain ⟨target, htarget⟩ : ∃ v : Nat, memory[ip + 1]? = some v :=
      ⟨_, List.getElem?_eq_getElem (by omega)⟩
    rcases hrange with h12 | h13
    · subst h12
      rw [executeGoto_direct hsize hop htarget] at h
      rw [← Option.some.inj h]
      simp
    · subst h13
      by_cases hout : memory.length ≤ target
      · rw [executeGoto_violation hsize hop htarget hout] at h
        rw [← Option.some.inj h]
        simp
      · rw [executeGoto_indirect hsize hop htarget
          (List.getElem?_eq_getElem (Nat.lt_of_not_le hout))] at h
        rw [← Option.some.inj h]
        simp
  · rw [executeGoto_short (Nat.lt_of_not_le hsize)] at h
    rw [← Option.some.inj h]
    simp

theorem executeAllocate_valid {memory : List Nat} {ip : Nat} {r : StepResult}
    (h : executeAllocate memory ip = some r) (x : Nat) :
    r.halt ≠ some (Message.invalidOpcode x) := by
  by_cases hsize : ip + 4 ≤ memory.length
  · obtain ⟨variable_index, hindex⟩ : ∃ v : Nat, memory[ip + 1]? = some v :=
      ⟨_, List.getElem?_eq_getElem (by omega)⟩
    by_cases hout : memory.length ≤ variable_index
    · rw [executeAllocate_violation hsize hindex hout] at h
      rw [← Option.some.inj h]
      simp
    · obtain ⟨amount, hamount⟩ : ∃ v : Nat, memory[variable_index]? = some v :=
        ⟨_, List.getElem?_eq_getElem (Nat.lt_of_not_le hout)⟩
      rw [executeAllocate_read hsize hindex hamount] at h
      by_cases hcap : 4294967295 ≤ amount + memory.length
      · rw [if_pos hcap] at h
        rw [← Option.some.inj h]
        simp
      · rw [if_neg hcap] at h
        rw [← Option.some.inj h]
        simp
  · rw [executeAllocate_short (Nat.lt_of_not_le hsize)] at h
    rw [← Option.some.inj h]
    simp

/-- C14. With `ip` not below the memory length the step stops with "Program
completed abnormal".  With `ip` below the length the step stops with "Invalid
opcode" exactly when the cell at `ip` is none of the values 0 to 15, and the
opcode printed is then that cell; no handler reaches its own `default` branch. -/
theorem decode_fault_classification (memory : List Nat) (ip : Nat) :
    (memory.length ≤ ip →
      executeInstruction memory ip = some ⟨memory, ip, some Message.programCompletedAbnormal⟩)
    ∧ (∀ h : ip < memory.length,
        ((∃ (r : StepResult) (x : Nat), executeInstruction memory ip = some r
            ∧ r.halt = some (Message.invalidOpcode x)) ↔ 16 ≤ memory[ip])
        ∧ (16 ≤ memory[ip] →
            executeInstruction memory ip
              = some ⟨memory, ip, some (Message.invalidOpcode memory[ip])⟩)) := by
  constructor
  · intro hip
    unfold executeInstruction
    rw [if_pos hip]
  · intro hlt
    have hcell : memory[ip]? = some memory[ip] := List.getElem?_eq_getElem hlt
    rcases executeInstruction_cases memory ip with ⟨hge, _⟩ | ⟨op_code, hop, hcases⟩
    · omega
    · have hop1 : memory[ip] = op_code := Option.some.inj (hcell.symm.trans hop)
      rw [hop1]
      rcases hcases with ⟨h0, hexec⟩ | ⟨h1, h5, hexec⟩ | ⟨h6, h11, hexec⟩ | ⟨h, hexec⟩
        | ⟨h14, hexec⟩ | ⟨h15, hexec⟩ | ⟨h16, hexec⟩
      · refine ⟨⟨?_, fun h => by omega⟩, fun h => by omega⟩
        rintro ⟨r, x, hr, hhalt⟩
        rw [hexec] at hr
        unfold executeNop at hr
        rw [← Option.some.inj hr] at hhalt
        exact Option.noConfusion hhalt
      · refine ⟨⟨?_, fun h => by omega⟩, fun h => by omega⟩
        rintro ⟨r, x, hr, hhalt⟩
        rw [hexec] at hr
        exact absurd hhalt (executeBinaryOperationAndAssignment_valid hop ⟨h1, h5⟩ hr x)
      · refine ⟨⟨?_, fun h => by omega⟩, fun h => by omega⟩
        rintro ⟨r, x, hr, hhalt⟩
        rw [hexec] at hr
        exact absurd hhalt (executeIf_valid hop ⟨h6, h11⟩ hr x)
      · refine ⟨⟨?_, fun h' => by omega⟩, fun h' => by omega⟩
        rintro ⟨r, x, hr, hhalt⟩
        rw [hexec] at hr
        exact absurd hhalt (executeGoto_valid hop h hr x)
      · refine ⟨⟨?_, fun h => by omega⟩, fun h => by omega⟩
        rintro ⟨r, x, hr, hhalt⟩
        rw [hexec] at hr
        exact absurd hhalt (executeAllocate_valid hr x)
      · refine ⟨⟨?_, fun h => by omega⟩, fun h => by omega⟩
        rintro ⟨r, x, hr, hhalt⟩
        rw [hexec] at hr
        rw [← Option.some.inj hr] at hhalt
        exact Message.noConfusion (Option.some.inj hhalt)
      · exact ⟨⟨fun _ => h16, fun _ => ⟨_, op_code, hexec, rfl⟩⟩, fun _ => hexec⟩

/-- C15. With the cell at `ip` equal to Stop (15) the step stops with "Program
completed successfully" and returns the memory and the `ip` it was given. -/
theorem stop_halts_with_success (memory : List Nat) (ip : Nat)
    (hop : memory[ip]? = some 15) :
    executeInstruction memory ip
      = some ⟨memory, ip, some Message.programCompletedSuccessfully⟩ := by
  unfold executeInstruction
  rw [if_neg (Nat.not_le.mpr (getElem?_some_lt hop)), hop]

/-- Witness for C15: the 1-cell memory `[Stop]` of Scenario D, from `ip` 0. -/
theorem stop_halts_with_success_witness :
    ([15] : List Nat)[0]? = some 15
    ∧ executeInstruction [15] 0 = some ⟨[15], 0, some Message.programCompletedSuccessfully⟩ :=
  ⟨by decide, stop_halts_with_success [15] 0 (by decide)⟩

/-- C16. A Nop continues with `ip` grown by 2, the byte size of `NopInstruction`,
not by 1: on `[Nop]` the step leaves `ip` at 2, and on `[Nop, Stop]` it steps
over the Stop, so that the next step stops with "Program completed abnormal"
where a step from `ip` 1 would stop with "Program completed successfully". -/
theorem nop_advances_by_two :
    executeInstruction [0] 0 = some ⟨[0], 2, none⟩
    ∧ executeInstruction [0, 15] 0 = some ⟨[0, 15], 2, none⟩
    ∧ executeInstruction [0, 15] 2 = some ⟨[0, 15], 2, some Message.programCompletedAbnormal⟩
    ∧ executeInstruction [0, 15] 1
        = some ⟨[0, 15], 1, some Message.programCompletedSuccessfully⟩ := by
  decide

/-! ## No access outside the memory -/

theorem executeBinaryOperationAndAssignment_isSome (memory : List Nat) (ip : Nat)
    (_hip : ip < memory.length) :
    ∃ r : StepResult, executeBinaryOperationAndAssignment memory ip = some r := by
  by_cases hsize : ip + 10 ≤ memory.length
  · obtain ⟨op_code, flags, result_index, a_raw, b_raw, _, _, _, _, _, hcases⟩ :=
      executeBinaryOperationAndAssignment_cases hsize
    rcases hcases with ⟨_, _, hexec⟩ | ⟨a, _, ⟨_, _, hexec⟩ | ⟨b, _, hexec⟩⟩
    · exact ⟨_, hexec⟩
    · exact ⟨_, hexec⟩
    · rw [hexec]
      rcases binaryOperation op_code a b with line | value
      · exact ⟨_, rfl⟩
      · by_cases hri : memory.length ≤ result_index
        · exact ⟨_, if_pos hri⟩
        · exact ⟨_, if_neg hri⟩
  · exact ⟨_, executeBinaryOperationAndAssignment_short (Nat.lt_of_not_le hsize)⟩

theorem executeIf_isSome (memory : List Nat) (ip : Nat)
    (_hip : ip < memory.length) :
    ∃ r : StepResult, executeIf memory ip = some r := by
  by_cases hsize : ip + 10 ≤ memory.length
  · obtain ⟨op_code, flags, a_raw, b_raw, new_address, _, _, _, _, _, hcases⟩ :=
      executeIf_cases hsize
    rcases hcases with ⟨_, _, hexec⟩ | ⟨a, _, ⟨_, _, hexec⟩ | ⟨b, _, hexec⟩⟩
    · exact ⟨_, hexec⟩
    · exact ⟨_, hexec⟩
    · rw [hexec]
      rcases comparison op_code a b with line | result
      · exact ⟨_, rfl⟩
      · cases result
        · exact ⟨_, rfl⟩
        · exact ⟨_, rfl⟩
  · exact ⟨_, executeIf_short (Nat.lt_of_not_le hsize)⟩

theorem executeGoto_isSome (memory : List Nat) (ip : Nat)
    (_hip : ip < memory.length) :
    ∃ r : StepResult, executeGoto memory ip = some r := by
  by_cases hsize : ip + 4 ≤ memory.length
  · obtain ⟨op_code, hop⟩ : ∃ v : Nat, memory[ip]? = some v :=
      ⟨_, List.getElem?_eq_getElem (by omega)⟩
    obtain ⟨target, htarget⟩ : ∃ v : Nat, memory[ip + 1]? = some v :=
      ⟨_, List.getElem?_eq_getElem (by omega)⟩
    by_cases h12 : op_code = 12
    · subst h12
      exact ⟨_, executeGoto_direct hsize hop htarget⟩
    · by_cases h13 : op_code = 13
      · subst h13
        by_cases hout : memory.length ≤ target
        · exact ⟨_, executeGoto_violation hsize hop htarget hout⟩
        · exact ⟨_, executeGoto_indirect hsize hop htarget
            (List.getElem?_eq_getElem (Nat.lt_of_not_le hout))⟩
      · refine ⟨⟨memory, ip, some (Message.invalidOpcode op_code)⟩, ?_⟩
        unfold executeGoto sizeofGotoInstruction
        rw [if_pos hsize]
        simp only [hop, htarget]
  · exact ⟨_, executeGoto_short (Nat.lt_of_not_le hsize)⟩

theorem executeAllocate_isSome (memory : List Nat) (ip : Nat)
    (_hip : ip < memory.length) :
    ∃ r : StepResult, executeAllocate memory ip = some r := by
  by_cases hsize : ip + 4 ≤ memory.length
  · obtain ⟨variable_index, hindex⟩ : ∃ v : Nat, memory[ip + 1]? = some v :=
      ⟨_, List.getElem?_eq_getElem (by omega)⟩
    by_cases hout : memory.length ≤ variable_index
    · exact ⟨_, executeAllocate_violation hsize hindex hout⟩
    · obtain ⟨amount, hamount⟩ : ∃ v : Nat, memory[variable_index]? = some v :=
        ⟨_, List.getElem?_eq_getElem (Nat.lt_of_not_le hout)⟩
      rw [executeAllocate_read hsize hindex hamount]
      by_cases hcap : 4294967295 ≤ amount + memory.length
      · exact ⟨_, if_pos hcap⟩
      · exact ⟨_, if_neg hcap⟩
  · exact ⟨_, executeAllocate_short (Nat.lt_of_not_le hsize)⟩

/-- C17. For every memory and every `ip` one step of the engine returns a
result: none of the checked accesses `memory[i]?` and no checked write of the
embedding (the opcode cell, the fields at `ip + 1` to `ip + 4`, an indexed
operand, the IndirectGoto target cell, the Allocate amount cell, the result
cell) is made with an index outside the memory as it is at that moment. -/
theorem step_never_accesses_outside_memory (memory : List Nat) (ip : Nat) :
    ∃ r : StepResult, executeInstruction memory ip = some r := by
  rcases executeInstruction_cases memory ip with ⟨_, hexec⟩ | ⟨op_code, hop, hcases⟩
  · exact ⟨_, hexec⟩
  · have hip : ip < memory.length := getElem?_some_lt hop
    rcases hcases with ⟨_, hexec⟩ | ⟨_, _, hexec⟩ | ⟨_, _, hexec⟩ | ⟨_, hexec⟩ | ⟨_, hexec⟩
      | ⟨_, hexec⟩ | ⟨_, hexec⟩
    · exact ⟨_, hexec⟩
    · rw [hexec]
      exact executeBinaryOperationAndAssignment_isSome memory ip hip
    · rw [hexec]
      exact executeIf_isSome memory ip hip
    · rw [hexec]
      exact executeGoto_isSome memory ip hip
    · rw [hexec]
      exact executeAllocate_isSome memory ip hip
    · exact ⟨_, hexec⟩
    · exact ⟨_, hexec⟩

/-! ## Order of the checks in an arithmetic step -/

/-- C18. The checks of an arithmetic step (opcodes 1 to 5) are made in the order
size check, read bound of operand `a`, read bound of operand `b`, division by
zero, write bound of `result_index`, and the first that fails decides the line
printed, whatever the later ones would give.  In particular a zero divisor
wins over a `result_index` outside the memory, and of two operands outside the
memory it is the address of operand `a` that is printed. -/
theorem arithmetic_checks_in_order (memory : List Nat) (ip op_code : Nat)
    (hop : memory[ip]? = some op_code) (hrange : 1 ≤ op_code ∧ op_code ≤ 5) :
    (memory.length < ip + sizeofBinaryOperationAndAssignmentInstruction →
      executeInstruction memory ip = some ⟨memory, ip, some Message.instructionIsNotComplete⟩)
    ∧ (ip + sizeofBinaryOperationAndAssignmentInstruction ≤ memory.length →
      ∀ flags result_index a_raw b_raw : Nat,
      memory[ip + 1]? = some flags → memory[ip + 2]? = some result_index →
      memory[ip + 3]? = some a_raw → memory[ip + 4]? = some b_raw →
      (flags &&& 1 ≠ 0 → memory.length ≤ a_raw →
        executeInstruction memory ip
          = some ⟨memory, ip, some (Message.accessViolationOnRead a_raw)⟩)
      ∧ ∀ a : Nat, (if flags &&& 1 = 0 then a = a_raw else memory[a_raw]? = some a) →
        (flags &&& 2 ≠ 0 → memory.length ≤ b_raw →
          executeInstruction memory ip
            = some ⟨memory, ip, some (Message.accessViolationOnRead b_raw)⟩)
        ∧ ∀ b : Nat, (if flags &&& 2 = 0 then b = b_raw else memory[b_raw]? = some b) →
          ((op_code = 4 ∨ op_code = 5) → b = 0 →
            executeInstruction memory ip = some ⟨memory, ip, some Message.divisionByZero⟩)
          ∧ (op_code ≤ 3 ∨ b ≠ 0 → memory.length ≤ result_index →
            ∃ address : Nat, executeInstruction memory ip
              = some ⟨memory, ip, some (Message.accessViolationOnWrite address)⟩)
          ∧ (op_code ≤ 3 ∨ b ≠ 0 → result_index < memory.length →
            ∃ r : StepResult, executeInstruction memory ip = some r ∧ r.halt = none)) := by
  rw [executeInstruction_binary hop hrange]
  unfold sizeofBinaryOperationAndAssignmentInstruction
  refine ⟨executeBinaryOperationAndAssignment_short, ?_⟩
  intro hsize flags result_index a_raw b_raw hflags hres ha_raw hb_raw
  refine ⟨fun hbit hout => ?_, fun a ha => ⟨fun hbit hout => ?_, fun b hb => ?_⟩⟩
  · exact executeBinaryOperationAndAssignment_violation_a hsize hop hflags hres ha_raw
      hb_raw (loadArgument_violation hbit hout)
  · exact executeBinaryOperationAndAssignment_violation_b hsize hop hflags hres ha_raw
      hb_raw (loadArgument_resolved ha) (loadArgument_violation hbit hout)
  · rw [executeBinaryOperationAndAssignment_loaded hsize hop hflags hres ha_raw hb_raw
      (loadArgument_resolved ha) (loadArgument_resolved hb)]
    have hvalue : op_code ≤ 3 ∨ b ≠ 0 → ∃ value, binaryOperation op_code a b = Except.ok value := by
      intro hok
      rcases hbin : binaryOperation op_code a b with line | value
      · have hline := binaryOperation_error_of_valid hrange hbin
        subst hline
        obtain ⟨h1, h5⟩ := hrange
        rcases hok with h3 | hb0
        · interval_cases op_code <;> exact Except.noConfusion hbin
        · interval_cases op_code
          · exact Except.noConfusion hbin
          · exact Except.noConfusion hbin
          · exact Except.noConfusion hbin
          · simp [binaryOperation, hb0] at hbin
          · simp [binaryOperation, hb0] at hbin
      · exact ⟨value, rfl⟩
    refine ⟨?_, ?_, ?_⟩
    · intro hdiv hb0
      subst hb0
      rcases hdiv with h | h <;> subst h <;> rfl
    · intro hok hout
      obtain ⟨value, hvalue⟩ := hvalue hok
      rw [hvalue]
      exact ⟨a, if_pos hout⟩
    · intro hok hin
      obtain ⟨value, hvalue⟩ := hvalue hok
      rw [hvalue]
      exact ⟨_, if_neg (Nat.not_le.mpr hin), rfl⟩

/-- Witness for C18: a Div whose divisor is the immediate 0 and whose
`result_index` 20 is outside the 10-cell memory stops with "Division by zero". -/
theorem arithmetic_checks_in_order_witness :
    ([4, 0, 20, 7, 0, 0, 0, 0, 0, 0] : List Nat)[0]? = some 4
    ∧ 0 + sizeofBinaryOperationAndAssignmentInstruction
        ≤ ([4, 0, 20, 7, 0, 0, 0, 0, 0, 0] : List Nat).length
    ∧ ([4, 0, 20, 7, 0, 0, 0, 0, 0, 0] : List Nat).length ≤ 20
    ∧ executeInstruction [4, 0, 20, 7, 0, 0, 0, 0, 0, 0] 0
        = some ⟨[4, 0, 20, 7, 0, 0, 0, 0, 0, 0], 0, some Message.divisionByZero⟩ :=
  ⟨by decide, by decide, by decide,
    (((((arithmetic_checks_in_order [4, 0, 20, 7, 0, 0, 0, 0, 0, 0] 0 4 (by decide)
      (by decide)).2 (by decide) 0 20 7 0 (by decide) (by decide) (by decide)
      (by decide)).2 7 (by decide)).2 0 (by decide)).1 (Or.inl rfl) rfl)⟩

/-! ## The flags cell -/

theorem and_two_eq_mod_four_and_two (x : Nat) : x &&& 2 = (x % 4) &&& 2 := by
  have h3 : x &&& 3 = x % 4 := Nat.and_pow_two_sub_one_eq_mod x 2
  have h32 : (3 : Nat) &&& 2 = 2 := by decide
  calc x &&& 2 = x &&& (3 &&& 2) := by rw [h32]
    _ = (x &&& 3) &&& 2 := (Nat.and_assoc x 3 2).symm
    _ = (x % 4) &&& 2 := by rw [h3]

theorem and_two_eq_zero_iff (x : Nat) : x &&& 2 = 0 ↔ ¬ x / 2 % 2 = 1 := by
  rw [and_two_eq_mod_four_and_two]
  have hlt : x % 4 < 4 := Nat.mod_lt _ (by decide)
  have hdiv : x / 2 % 2 = x % 4 / 2 := by omega
  rw [hdiv]
  generalize x % 4 = m at hlt
  interval_cases m <;> decide

theorem and_one_eq_zero_iff (x : Nat) : x &&& 1 = 0 ↔ ¬ x % 2 = 1 := by
  rw [Nat.and_one_is_mod]
  omega

theorem loadArgument_mod_four (memory : List Nat) (flags raw : Nat) :
    loadArgument memory flags 1 raw = loadArgument memory (flags % 4) 1 raw
      ∧ loadArgument memory flags 2 raw = loadArgument memory (flags % 4) 2 raw := by
  have h1 : flags &&& 1 = (flags % 4) &&& 1 := by
    rw [Nat.and_one_is_mod, Nat.and_one_is_mod]
    omega
  have h2 : flags &&& 2 = (flags % 4) &&& 2 := and_two_eq_mod_four_and_two flags
  unfold loadArgument
  rw [h1, h2]
  exact ⟨rfl, rfl⟩

theorem loadArgument_bit_zero {memory : List Nat} {flags raw value : Nat}
    (h : if flags % 2 = 1 then memory[raw]? = some value else value = raw) :
    loadArgument memory flags 1 raw = some (Except.ok value) := by
  apply loadArgument_resolved
  by_cases hbit : flags % 2 = 1
  · rw [if_pos hbit] at h
    rw [if_neg (fun h0 => (and_one_eq_zero_iff flags).mp h0 hbit)]
    exact h
  · rw [if_neg hbit] at h
    rw [if_pos ((and_one_eq_zero_iff flags).mpr hbit)]
    exact h

theorem loadArgument_bit_one {memory : List Nat} {flags raw value : Nat}
    (h : if flags / 2 % 2 = 1 then memory[raw]? = some value else value = raw) :
    loadArgument memory flags 2 raw = some (Except.ok value) := by
  apply loadArgument_resolved
  by_cases hbit : flags / 2 % 2 = 1
  · rw [if_pos hbit] at h
    rw [if_neg (fun h0 => (and_two_eq_zero_iff flags).mp h0 hbit)]
    exact h
  · rw [if_neg hbit] at h
    rw [if_pos ((and_two_eq_zero_iff flags).mpr hbit)]
    exact h

/-- C19. In an arithmetic or conditional instruction (opcodes 1 to 11) that is not
reported as incomplete, with any value `flags` in the flags cell, operand `a`
is replaced by the cell it indexes exactly when `flags` is odd and operand `b`
exactly when bit 1 of `flags` is set; otherwise the raw value is used.  The
step is then the operation or comparison of the two values, and the only line
that the flags can lead to is the read violation of an operand outside the
memory.  Resolving with `flags` is the same as resolving with `flags % 4`. -/
theorem flags_use_bits_zero_and_one_only (memory : List Nat) (ip op_code flags : Nat)
    (hop : memory[ip]? = some op_code) (hrange : 1 ≤ op_code ∧ op_code ≤ 11)
    (hcomplete : executeInstruction memory ip
      ≠ some ⟨memory, ip, some Message.instructionIsNotComplete⟩)
    (hflags : memory[ip + 1]? = some flags) :
    (∀ raw : Nat, loadArgument memory flags 1 raw = loadArgument memory (flags % 4) 1 raw
      ∧ loadArgument memory flags 2 raw = loadArgument memory (flags % 4) 2 raw)
    ∧ (op_code ≤ 5 → ∀ result_index a_raw b_raw : Nat,
      memory[ip + 2]? = some result_index →
      memory[ip + 3]? = some a_raw → memory[ip + 4]? = some b_raw →
      (flags % 2 = 1 → memory.length ≤ a_raw →
        executeInstruction memory ip
          = some ⟨memory, ip, some (Message.accessViolationOnRead a_raw)⟩)
      ∧ ∀ a : Nat, (if flags % 2 = 1 then memory[a_raw]? = some a else a = a_raw) →
        (flags / 2 % 2 = 1 → memory.length ≤ b_raw →
          executeInstruction memory ip
            = some ⟨memory, ip, some (Message.accessViolationOnRead b_raw)⟩)
        ∧ ∀ b : Nat, (if flags / 2 % 2 = 1 then memory[b_raw]? = some b else b = b_raw) →
          executeInstruction memory ip =
            match binaryOperation op_code a b with
            | Except.error line => some ⟨memory, ip, some line⟩
            | Except.ok result =>
              if memory.length ≤ result_index then
                some ⟨memory, ip, some (Message.accessViolationOnWrite a)⟩
              else
                some ⟨memory.set result_index result, ip + 10, none⟩)
    ∧ (6 ≤ op_code → ∀ a_raw b_raw new_address : Nat,
      memory[ip + 2]? = some a_raw →
      memory[ip + 3]? = some b_raw → memory[ip + 4]? = some new_address →
      (flags % 2 = 1 → memory.length ≤ a_raw →
        executeInstruction memory ip
          = some ⟨memory, ip, some (Message.accessViolationOnRead a_raw)⟩)
      ∧ ∀ a : Nat, (if flags % 2 = 1 then memory[a_raw]? = some a else a = a_raw) →
        (flags / 2 % 2 = 1 → memory.length ≤ b_raw →
          executeInstruction memory ip
            = some ⟨memory, ip, some (Message.accessViolationOnRead b_raw)⟩)
        ∧ ∀ b : Nat, (if flags / 2 % 2 = 1 then memory[b_raw]? = some b else b = b_raw) →
          executeInstruction memory ip =
            match comparison op_code a b with
            | Except.error line => some ⟨memory, ip, some line⟩
            | Except.ok result =>
              if result then some ⟨memory, new_address, none⟩
              else some ⟨memory, ip + 10, none⟩) := by
  have hbit0 : flags % 2 = 1 → flags &&& 1 ≠ 0 :=
    fun hodd h0 => (and_one_eq_zero_iff flags).mp h0 hodd
  have hbit1 : flags / 2 % 2 = 1 → flags &&& 2 ≠ 0 :=
    fun hset h0 => (and_two_eq_zero_iff flags).mp h0 hset
  refine ⟨fun raw => loadArgument_mod_four memory flags raw, ?_, ?_⟩
  · intro h5 result_index a_raw b_raw hres ha_raw hb_raw
    rw [executeInstruction_binary hop ⟨hrange.1, h5⟩] at hcomplete ⊢
    have hsize : ip + 10 ≤ memory.length := by
      by_contra hshort
      exact hcomplete (executeBinaryOperationAndAssignment_short (Nat.lt_of_not_le hshort))
    refine ⟨fun hbit hout => ?_, fun a ha => ⟨fun hbit hout => ?_, fun b hb => ?_⟩⟩
    · exact executeBinaryOperationAndAssignment_violation_a hsize hop hflags hres ha_raw
        hb_raw (loadArgument_violation (hbit0 hbit) hout)
    · exact executeBinaryOperationAndAssignment_violation_b hsize hop hflags hres ha_raw
        hb_raw (loadArgument_bit_zero ha) (loadArgument_violation (hbit1 hbit) hout)
    · exact executeBinaryOperationAndAssignment_loaded hsize hop hflags hres ha_raw hb_raw
        (loadArgument_bit_zero ha) (loadArgument_bit_one hb)
  · intro h6 a_raw b_raw new_address ha_raw hb_raw hnew
    rw [executeInstruction_if hop ⟨h6, hrange.2⟩] at hcomplete ⊢
    have hsize : ip + 10 ≤ memory.length := by
      by_contra hshort
      exact hcomplete (executeIf_short (Nat.lt_of_not_le hshort))
    refine ⟨fun hbit hout => ?_, fun a ha => ⟨fun hbit hout => ?_, fun b hb => ?_⟩⟩
    · exact executeIf_violation_a hsize hop hflags ha_raw hb_raw hnew
        (loadArgument_violation (hbit0 hbit) hout)
    · exact executeIf_violation_b hsize hop hflags ha_raw hb_raw hnew
        (loadArgument_bit_zero ha) (loadArgument_violation (hbit1 hbit) hout)
    · exact executeIf_loaded hsize hop hflags ha_raw hb_raw hnew
        (loadArgument_bit_zero ha) (loadArgument_bit_one hb)

/-- Witness for C19: an Add with flags 65533 (bit 0 set, bit 1 clear, bits 2 to 15
set) adds cell 8, which holds 4, and the immediate 5. -/
theorem flags_use_bits_zero_and_one_only_witness :
    ([1, 65533, 9, 8, 5, 0, 0, 0, 4, 0] : List Nat)[0]? = some 1
    ∧ executeInstruction [1, 65533, 9, 8, 5, 0, 0, 0, 4, 0] 0
        ≠ some ⟨[1, 65533, 9, 8, 5, 0, 0, 0, 4, 0], 0, some Message.instructionIsNotComplete⟩
    ∧ ([1, 65533, 9, 8, 5, 0, 0, 0, 4, 0] : List Nat)[0 + 1]? = some 65533
    ∧ 65533 % 2 = 1 ∧ ¬ 65533 / 2 % 2 = 1
    ∧ executeInstruction [1, 65533, 9, 8, 5, 0, 0, 0, 4, 0] 0
        = some ⟨[1, 65533, 9, 8, 5, 0, 0, 0, 4, 9], 10, none⟩ :=
  ⟨by decide, by decide, by decide, by decide, by decide,
    ((((flags_use_bits_zero_and_one_only [1, 65533, 9, 8, 5, 0, 0, 0, 4, 0] 0 1 65533
      (by decide) (by decide) (by decide) (by decide)).2.1 (by decide) 9 8 5 (by decide)
      (by decide) (by decide)).2 4 (by decide)).2 5 (by decide))⟩

/-! ## The tokenizer -/

theorem skipSeparators_run (rest : List Char) (i : Nat) :
    ∃ separators tail : List Char, rest = separators ++ tail
      ∧ (∀ c ∈ separators, isSeparator c = true)
      ∧ skipSeparators rest i = i + separators.length
      ∧ (tail = [] ∨ ∃ c t, tail = c :: t ∧ isSeparator c = false) := by
  induction rest generalizing i with
  | nil => exact ⟨[], [], rfl, fun c hc => absurd hc (List.not_mem_nil c), rfl, Or.inl rfl⟩
  | cons c rest ih =>
    by_cases hsep : isSeparator c = true
    · obtain ⟨separators, tail, hrest, hall, hskip, htail⟩ := ih (i + 1)
      refine ⟨c :: separators, tail, by rw [hrest]; rfl, ?_, ?_, htail⟩
      · intro d hd
        rcases List.mem_cons.mp hd with h | h
        · rw [h]
          exact hsep
        · exact hall d h
      · unfold skipSeparators
        rw [if_pos hsep, hskip, List.length_cons]
        omega
    · refine ⟨[], c :: rest, rfl, fun d hd => absurd hd (List.not_mem_nil d), ?_,
        Or.inr ⟨c, rest, rfl, by simpa using hsep⟩⟩
      unfold skipSeparators
      rw [if_neg hsep]
      rfl

theorem readToken_run (rest result : List Char) (i : Nat) :
    ∃ token tail : List Char, rest = token ++ tail
      ∧ (∀ c ∈ token, isSeparator c = false ∧ isOneCharToken c = false)
      ∧ readToken rest result i = (result ++ token, i + token.length)
      ∧ (∀ c t, rest = c :: t → isSeparator c = false → isOneCharToken c = false →
          token ≠ []) := by
  induction rest generalizing result i with
  | nil =>
    refine ⟨[], [], rfl, fun c hc => absurd hc (List.not_mem_nil c), ?_, ?_⟩
    · unfold readToken
      rw [List.append_nil]
      rfl
    · intro c t h
      exact List.noConfusion h
  | cons c rest ih =>
    by_cases hplain : (!isSeparator c && !isOneCharToken c) = true
    · have hc : isSeparator c = false ∧ isOneCharToken c = false := by
        simpa using hplain
      obtain ⟨token, tail, hrest, hall, hread, _⟩ := ih (result ++ [c]) (i + 1)
      refine ⟨c :: token, tail, by rw [hrest]; rfl, ?_, ?_, ?_⟩
      · intro d hd
        rcases List.mem_cons.mp hd with h | h
        · rw [h]
          exact hc
        · exact hall d h
      · unfold readToken
        rw [if_pos hplain, hread, List.length_cons, List.append_assoc]
        exact Prod.ext rfl (by show i + 1 + token.length = i + (token.length + 1); omega)
      · intro _ _ _ _ _
        exact List.cons_ne_nil c token
    · refine ⟨[], c :: rest, rfl, fun d hd => absurd hd (List.not_mem_nil d), ?_, ?_⟩
      · unfold readToken
        rw [if_neg hplain, List.append_nil]
        rfl
      · intro d t h hsep hone
        have hd : c = d := (List.cons.inj h).1
        rw [hd] at hplain
        rw [hsep, hone] at hplain
        exact absurd rfl hplain

theorem isOneCharToken_true {c : Char} (h : isOneCharToken c = true) : c = '[' ∨ c = ']' := by
  unfold isOneCharToken at h
  simpa using h

/-- The token and the remainder that `nextToken` returns, in terms of a split
of the line. -/
theorem nextToken_split (line : List Char) :
    ∃ separators token remainder : List Char,
      line = separators ++ token ++ remainder
      ∧ (∀ c ∈ separators, isSeparator c = true)
      ∧ nextToken line = (token, remainder)
      ∧ (token = ['['] ∨ token = [']']
          ∨ ∀ c ∈ token, isSeparator c = false ∧ isOneCharToken c = false)
      ∧ (line ≠ [] → separators ++ token ≠ []) := by
  obtain ⟨separators, tail, hline, hall, hskip, htail⟩ := skipSeparators_run line 0
  have hi : skipSeparators line 0 = separators.length := by
    rw [hskip, Nat.zero_add]
  have hdrop : line.drop separators.length = tail := by
    rw [hline]
    exact List.drop_left separators tail
  rcases htail with hnil | ⟨c, t, hcons, hsep⟩
  · subst hnil
    rw [List.append_nil] at hline
    refine ⟨separators, [], [], by rw [hline]; simp, hall, ?_, ?_, ?_⟩
    · have hchar : charAt line separators.length = Char.ofNat 0 := by
        unfold charAt
        rw [hline, List.getD_eq_getElem?_getD, List.getElem?_eq_none (Nat.le_refl _)]
        rfl
      unfold nextToken
      simp only [hi, hchar]
      rw [if_neg (by decide), hdrop]
      show (([] : List Char), List.drop separators.length line) = ([], [])
      rw [hdrop]
    · exact Or.inr (Or.inr (fun c hc => absurd hc (List.not_mem_nil c)))
    · intro hne
      rw [List.append_nil, ← hline]
      exact hne
  · subst hcons
    have hchar : charAt line separators.length = c := by
      unfold charAt
      rw [hline, List.getD_eq_getElem?_getD, List.getElem?_append_right (Nat.le_refl _),
        Nat.sub_self]
      simp
    by_cases hone : isOneCharToken c = true
    · refine ⟨separators, [c], t, by rw [hline]; simp, hall, ?_, ?_, ?_⟩
      · have hdrop1 : line.drop (separators.length + 1) = t := by
          rw [← List.drop_drop, hdrop]
          rfl
        unfold nextToken
        simp only [hi, hchar, hone, if_true, hdrop1]
      · rcases isOneCharToken_true hone with h | h
        · exact Or.inl (by rw [h])
        · exact Or.inr (Or.inl (by rw [h]))
      · intro _
        simp
    · have hone' : isOneCharToken c = false := by simpa using hone
      obtain ⟨token, remainder, hrest, htoken, hread, hnonempty⟩ :=
        readToken_run (c :: t) [] separators.length
      have hdrop2 : line.drop (separators.length + token.length) = remainder := by
        rw [← List.drop_drop, hdrop, hrest]
        exact List.drop_left token remainder
      refine ⟨separators, token, remainder, by rw [hline, hrest, List.append_assoc], hall,
        ?_, Or.inr (Or.inr htoken), ?_⟩
      · unfold nextToken
        simp only [hi, hchar, hone', hdrop, hread, List.nil_append, hdrop2]
        rfl
      · intro _ hempty
        have htok : token = [] := (List.append_eq_nil.mp hempty).2
        exact hnonempty c t rfl hsep hone' htok

theorem parseLine_returns {σ ε : Type} (parseLabel parseInput : List Char → σ → Except ε σ)
    (fuel : Nat) (line : List Char) (state : σ) (hfuel : line.length ≤ fuel) :
    ∃ outcome, parseLine parseLabel parseInput fuel line state = some outcome := by
  induction fuel generalizing line state with
  | zero =>
    have hnil : line = [] := List.length_eq_zero.mp (Nat.le_zero.mp hfuel)
    subst hnil
    exact ⟨_, rfl⟩
  | succ fuel ih =>
    cases line with
    | nil => exact ⟨_, rfl⟩
    | cons c cs =>
      obtain ⟨separators, token, remainder, hline, _, hnext, _, hnonempty⟩ :=
        nextToken_split (c :: cs)
      have hshort : remainder.length ≤ fuel := by
        have hlen := congrArg List.length hline
        have hpos : 0 < (separators ++ token).length :=
          List.length_pos.mpr (hnonempty (List.cons_ne_nil c cs))
        rw [List.length_append] at hlen
        rw [List.length_cons] at hlen hfuel
        omega
      unfold parseLine
      simp only [hnext]
      split
      · split
        · exact ⟨_, rfl⟩
        · exact ih remainder _ hshort
      · split
        · split
          · exact ⟨_, rfl⟩
          · exact ih remainder _ hshort
        · exact ih remainder _ hshort

/-- C20. On a non-empty line `nextToken` leaves a remainder that is a proper suffix
of the line; the line is a run of separators, then the returned token, then the
remainder; and the token is a single `[` or `]`, or a possibly empty string
with no separator and no bracket in it.  Hence the loop of `parseLine` comes to
an end within as many turns as the line has characters, whatever `parseLabel`
and `parseInput` do when a keyword calls them (on a line without the keywords
`label` and `input` they are not called). -/
theorem nextToken_consumes_and_parseLine_ends (line : List Char) (hne : line ≠ []) :
    (∃ separators : List Char, (∀ c ∈ separators, isSeparator c = true)
      ∧ line = separators ++ (nextToken line).1 ++ (nextToken line).2)
    ∧ (nextToken line).2.length < line.length
    ∧ List.IsSuffix (nextToken line).2 line
    ∧ ((nextToken line).1 = ['['] ∨ (nextToken line).1 = [']']
        ∨ ∀ c ∈ (nextToken line).1, isSeparator c = false ∧ isOneCharToken c = false)
    ∧ (∀ (σ ε : Type) (parseLabel parseInput : List Char → σ → Except ε σ) (state : σ),
        ∃ outcome, parseLine parseLabel parseInput line.length line state = some outcome) := by
  obtain ⟨separators, token, remainder, hline, hall, hnext, hshape, hnonempty⟩ :=
    nextToken_split line
  rw [hnext]
  refine ⟨⟨separators, hall, hline⟩, ?_, ⟨separators ++ token, hline.symm⟩, hshape, ?_⟩
  · have hlen := congrArg List.length hline
    have hpos : 0 < (separators ++ token).length := List.length_pos.mpr (hnonempty hne)
    rw [List.length_append] at hlen
    show remainder.length < line.length
    omega
  · intro σ ε parseLabel parseInput state
    exact parseLine_returns parseLabel parseInput line.length line state (Nat.le_refl _)

/-- Witness for C20: from the line `  ab[c` the token is `ab` and the remainder
is `[c`. -/
theorem nextToken_consumes_and_parseLine_ends_witness :
    "  ab[c".toList ≠ []
    ∧ nextToken "  ab[c".toList = ("ab".toList, "[c".toList)
    ∧ (nextToken "  ab[c".toList).2.length < "  ab[c".toList.length
    ∧ List.IsSuffix (nextToken "  ab[c".toList).2 "  ab[c".toList :=
  ⟨by decide, by decide,
    (nextToken_consumes_and_parseLine_ends "  ab[c".toList (by decide)).2.1,
    (nextToken_consumes_and_parseLine_ends "  ab[c".toList (by decide)).2.2.1⟩

/-- Witness for C14: the 1-cell memory `[99]` stops with "Invalid opcode" 99, and a
step from `ip` 1 stops with "Program completed abnormal". -/
theorem decode_fault_classification_witness :
    executeInstruction [99] 1 = some ⟨[99], 1, some Message.programCompletedAbnormal⟩
    ∧ executeInstruction [99] 0 = some ⟨[99], 0, some (Message.invalidOpcode 99)⟩ :=
  ⟨(decode_fault_classification [99] 1).1 (by decide),
    ((decode_fault_classification [99] 0).2 (by decide)).2 (by decide)⟩

end TuringMachine
